import Mathlib

/-!
Verification development for the go-mcp server library.

The Go sources are embedded shallowly: pure functions become Lean functions,
the dispatcher's mutable state (subscription set, log level) is threaded
explicitly, JSON documents are a small inductive type, and machine integers
are modelled by Nat/Int.  JSON numbers are modelled by Rat (the claims under
study never depend on float64 rounding).
-/

/-! ## JSON model

A shallow model of Go's `encoding/json` documents.  Objects keep their field
order (Go's Marshal emits struct fields in declaration order); duplicate keys
are resolved last-wins, as `json.Unmarshal` assigns occurrences in order. -/

inductive JSON where
  | null
  | bool (b : Bool)
  | num (q : Rat)
  | str (s : String)
  | arr (xs : List JSON)
  | obj (fields : List (String × JSON))

/-- Last-wins field lookup, matching `encoding/json` decoding of duplicate keys. -/
def jlookup (k : String) : List (String × JSON) → Option JSON
  | [] => none
  | (k', v) :: rest =>
    match jlookup k rest with
    | some r => some r
    | none => if k' = k then some v else none

/-! ## Base64 (encoding/base64, StdEncoding with padding)

Bytes are `Fin 256`.  `BlobResourceContent.MarshalJSON`, `ImageContent` and
`AudioContent` drain the payload stream through `base64.NewEncoder` with
`StdEncoding`; the model works on the materialized byte list. -/

def b64Alphabet : List Char :=
  "ABCDEFGHIJKLMNOPQRSTUVWXYZabcdefghijklmnopqrstuvwxyz0123456789+/".toList

def b64Char (n : Nat) : Char := b64Alphabet.getD n 'A'

def b64EncodeList : List (Fin 256) → List Char
  | b1 :: b2 :: b3 :: rest =>
    b64Char (b1.val / 4) :: b64Char ((b1.val % 4) * 16 + b2.val / 16) ::
      b64Char ((b2.val % 16) * 4 + b3.val / 64) :: b64Char (b3.val % 64) :: b64EncodeList rest
  | [b1, b2] => [b64Char (b1.val / 4), b64Char ((b1.val % 4) * 16 + b2.val / 16),
      b64Char ((b2.val % 16) * 4), '=']
  | [b1] => [b64Char (b1.val / 4), b64Char ((b1.val % 4) * 16), '=', '=']
  | [] => []

def base64Encode (bs : List (Fin 256)) : String := String.mk (b64EncodeList bs)

def b64Index (c : Char) : Option Nat := b64Alphabet.indexOf? c

/-- Decoder for standard padded base64, quartet by quartet. -/
def b64DecodeList : List Char → Option (List (Fin 256))
  | [] => some []
  | c1 :: c2 :: c3 :: c4 :: rest =>
    match b64Index c1, b64Index c2 with
    | some s1, some s2 =>
      if c3 = '=' ∧ c4 = '=' ∧ rest = [] then
        some [⟨(s1 * 4 + s2 / 16) % 256, Nat.mod_lt _ (by decide)⟩]
      else if c4 = '=' ∧ rest = [] then
        match b64Index c3 with
        | some s3 =>
          some [⟨(s1 * 4 + s2 / 16) % 256, Nat.mod_lt _ (by decide)⟩,
                ⟨((s2 % 16) * 16 + s3 / 4) % 256, Nat.mod_lt _ (by decide)⟩]
        | none => none
      else
        match b64Index c3, b64Index c4, b64DecodeList rest with
        | some s3, some s4, some tail =>
          some (⟨(s1 * 4 + s2 / 16) % 256, Nat.mod_lt _ (by decide)⟩ ::
                ⟨((s2 % 16) * 16 + s3 / 4) % 256, Nat.mod_lt _ (by decide)⟩ ::
                ⟨((s3 % 4) * 64 + s4) % 256, Nat.mod_lt _ (by decide)⟩ :: tail)
        | _, _, _ => none
    | _, _ => none
  | _ => none

def base64Decode (s : String) : Option (List (Fin 256)) := b64DecodeList s.toList

theorem b64Index_b64Char : ∀ k : Fin 64, b64Index (b64Char k.val) = some k.val := by decide

theorem b64Char_ne_pad : ∀ k : Fin 64, b64Char k.val ≠ '=' := by decide

theorem b64DecodeList_encode (bs : List (Fin 256)) : b64DecodeList (b64EncodeList bs) = some bs := by
  induction bs using b64EncodeList.induct with
  | case1 b1 b2 b3 rest ih =>
    have h1 := b64Index_b64Char ⟨b1.val / 4, by omega⟩
    have h2 := b64Index_b64Char ⟨(b1.val % 4) * 16 + b2.val / 16, by omega⟩
    have h3 := b64Index_b64Char ⟨(b2.val % 16) * 4 + b3.val / 64, by omega⟩
    have h4 := b64Index_b64Char ⟨b3.val % 64, by omega⟩
    have n3 := b64Char_ne_pad ⟨(b2.val % 16) * 4 + b3.val / 64, by omega⟩
    have n4 := b64Char_ne_pad ⟨b3.val % 64, by omega⟩
    simp only [b64EncodeList, b64DecodeList, h1, h2, h3, h4, ih]
    rw [if_neg (by simp [n3]), if_neg (by simp [n4])]
    have e1 : (b1.val / 4 * 4 + ((b1.val % 4) * 16 + b2.val / 16) / 16) % 256 = b1.val := by omega
    have e2 : ((((b1.val % 4) * 16 + b2.val / 16) % 16) * 16 +
        ((b2.val % 16) * 4 + b3.val / 64) / 4) % 256 = b2.val := by omega
    have e3 : ((((b2.val % 16) * 4 + b3.val / 64) % 4) * 64 + b3.val % 64) % 256 = b3.val := by omega
    simp [e1, e2, e3]
  | case2 b1 b2 =>
    have h1 := b64Index_b64Char ⟨b1.val / 4, by omega⟩
    have h2 := b64Index_b64Char ⟨(b1.val % 4) * 16 + b2.val / 16, by omega⟩
    have h3 := b64Index_b64Char ⟨(b2.val % 16) * 4, by omega⟩
    have n3 := b64Char_ne_pad ⟨(b2.val % 16) * 4, by omega⟩
    simp only [b64EncodeList, b64DecodeList, h1, h2, h3]
    rw [if_neg (by simp [n3]), if_pos (by simp)]
    have hb1 := b1.isLt
    have hb2 := b2.isLt
    simp only [Option.some.injEq, List.cons.injEq, and_true]
    exact ⟨Fin.ext (by simp only [Fin.val_mk]; omega), Fin.ext (by simp only [Fin.val_mk]; omega)⟩
  | case3 b1 =>
    have h1 := b64Index_b64Char ⟨b1.val / 4, by omega⟩
    have h2 := b64Index_b64Char ⟨(b1.val % 4) * 16, by omega⟩
    simp only [b64EncodeList, b64DecodeList, h1, h2]
    rw [if_pos (by simp)]
    have hb1 := b1.isLt
    simp only [Option.some.injEq, List.cons.injEq, and_true]
    exact Fin.ext (by simp only [Fin.val_mk]; omega)
  | case4 => rfl

theorem base64Decode_encode (bs : List (Fin 256)) : base64Decode (base64Encode bs) = some bs := by
  show b64DecodeList (String.mk (b64EncodeList bs)).toList = some bs
  have : (String.mk (b64EncodeList bs)).toList = b64EncodeList bs := rfl
  rw [this, b64DecodeList_encode]

/-! ## Content model (type.go)

Tagged content variants and their `MarshalJSON` wire shapes.  Binary payloads
(`io.Reader` streams) are modelled by their materialized bytes, matching the
claim's "modulo materializing the byte stream".  Go's `omitzero` on a string
field omits it when `""`; on a pointer or nil slice it omits the field. -/

/-- Model of `mcp.Annotations`.  `Audience []Role` is `none` for a nil slice
(omitted by `omitzero`); `Priority *float64` is an optional number. -/
structure AnnotationsM where
  audience : Option (List String)
  priority : Option Rat

def AnnotationsM.marshalJSON (a : AnnotationsM) : JSON :=
  JSON.obj
    ((match a.audience with
      | none => []
      | some roles => [("audience", JSON.arr (roles.map JSON.str))]) ++
     (match a.priority with
      | none => []
      | some q => [("priority", JSON.num q)]))

/-- Model of `mcp.TextContent`; the `annots` field is the `Annotations` pointer. -/
structure TextContent where
  text : String
  annots : Option AnnotationsM

/-- Lines 200-210 of type.go: emit `type`, `text`, then `annotations` (omitzero). -/
def TextContent.MarshalJSON (t : TextContent) : JSON :=
  JSON.obj ([("type", JSON.str "text"), ("text", JSON.str t.text)] ++
    (match t.annots with
     | none => []
     | some a => [("annotations", a.marshalJSON)]))

/-- Model of `mcp.TextResourceContent`. -/
structure TextResourceContent where
  uri : String
  mimeType : String
  text : String

/-- Lines 112-122 of type.go: `uri`, `mimeType` (omitzero), `text` (omitzero). -/
def TextResourceContent.MarshalJSON (t : TextResourceContent) : JSON :=
  JSON.obj ([("uri", JSON.str t.uri)] ++
    (if t.mimeType = "" then [] else [("mimeType", JSON.str t.mimeType)]) ++
    (if t.text = "" then [] else [("text", JSON.str t.text)]))

/-- Model of `mcp.BlobResourceContent` with the `io.Reader` materialized. -/
structure BlobResourceContent where
  uri : String
  mimeType : String
  blob : List (Fin 256)

/-- Lines 136-153 of type.go: base64-encode the stream, then emit `uri`,
`mimeType` (omitzero) and the always-present `data` field. -/
def BlobResourceContent.MarshalJSON (b : BlobResourceContent) : JSON :=
  JSON.obj ([("uri", JSON.str b.uri)] ++
    (if b.mimeType = "" then [] else [("mimeType", JSON.str b.mimeType)]) ++
    [("data", JSON.str (base64Encode b.blob))])

/-- Model of the `mcp.ResourceContent` interface (text or blob variant). -/
inductive ResourceContent where
  | text (t : TextResourceContent)
  | blob (b : BlobResourceContent)

def ResourceContent.MarshalJSON : ResourceContent → JSON
  | .text t => t.MarshalJSON
  | .blob b => b.MarshalJSON

/-- Model of `mcp.EmbeddedResource`: no custom marshaller, so Go emits the
struct fields `resource` and `annotations` (omitzero) in declaration order,
with no `type` discriminant. -/
structure EmbeddedResource where
  resource : ResourceContent
  annots : Option AnnotationsM

def EmbeddedResource.MarshalJSON (e : EmbeddedResource) : JSON :=
  JSON.obj ([("resource", e.resource.MarshalJSON)] ++
    (match e.annots with
     | none => []
     | some a => [("annotations", a.marshalJSON)]))

/-! Wire-shape parsers, written from the spec's section 4.3 shapes; proving
them inverse to the marshallers settles the round-trip half of the claim. -/

def parseRoleList : List JSON → Option (List String)
  | [] => some []
  | JSON.str s :: rest => (parseRoleList rest).map (s :: ·)
  | _ => none

def parseAnnotationsM (j : JSON) : Option AnnotationsM :=
  match j with
  | JSON.obj fs => do
    let audience ← match jlookup "audience" fs with
      | none => some none
      | some (JSON.arr xs) => (parseRoleList xs).map some
      | some _ => none
    let priority ← match jlookup "priority" fs with
      | none => some none
      | some (JSON.num q) => some (some q)
      | some _ => none
    pure ⟨audience, priority⟩
  | _ => none

def parseAnnField (fs : List (String × JSON)) : Option (Option AnnotationsM) :=
  match jlookup "annotations" fs with
  | none => some none
  | some j => (parseAnnotationsM j).map some

def parseTextContent (j : JSON) : Option TextContent :=
  match j with
  | JSON.obj fs => do
    let JSON.str "text" ← pure ((jlookup "type" fs).getD JSON.null) | none
    let JSON.str t ← pure ((jlookup "text" fs).getD JSON.null) | none
    let ann ← parseAnnField fs
    pure ⟨t, ann⟩
  | _ => none

def strFieldOrEmpty (fs : List (String × JSON)) (k : String) : Option String :=
  match jlookup k fs with
  | none => some ""
  | some (JSON.str s) => some s
  | some _ => none

def parseTextResourceContent (j : JSON) : Option TextResourceContent :=
  match j with
  | JSON.obj fs => do
    let some (JSON.str uri) ← pure (jlookup "uri" fs) | none
    let mt ← strFieldOrEmpty fs "mimeType"
    let tx ← strFieldOrEmpty fs "text"
    pure ⟨uri, mt, tx⟩
  | _ => none

def parseBlobResourceContent (j : JSON) : Option BlobResourceContent :=
  match j with
  | JSON.obj fs => do
    let some (JSON.str uri) ← pure (jlookup "uri" fs) | none
    let mt ← strFieldOrEmpty fs "mimeType"
    let some (JSON.str data) ← pure (jlookup "data" fs) | none
    let bytes ← base64Decode data
    pure ⟨uri, mt, bytes⟩
  | _ => none

/-- A resource content object is a blob exactly when it carries a `data` field. -/
def parseResourceContent (j : JSON) : Option ResourceContent :=
  match j with
  | JSON.obj fs =>
    match jlookup "data" fs with
    | some _ => (parseBlobResourceContent j).map ResourceContent.blob
    | none => (parseTextResourceContent j).map ResourceContent.text
  | _ => none

def parseEmbeddedResource (j : JSON) : Option EmbeddedResource :=
  match j with
  | JSON.obj fs => do
    let some rj ← pure (jlookup "resource" fs) | none
    let r ← parseResourceContent rj
    let ann ← parseAnnField fs
    pure ⟨r, ann⟩
  | _ => none

/-! Round-trip lemmas for the content model. -/

theorem parseRoleList_map (l : List String) : parseRoleList (l.map JSON.str) = some l := by
  induction l with
  | nil => rfl
  | cons s rest ih => simp [parseRoleList, ih]

theorem parseAnnotationsM_marshal (a : AnnotationsM) :
    parseAnnotationsM a.marshalJSON = some a := by
  obtain ⟨aud, pri⟩ := a
  cases aud with
  | none =>
    cases pri with
    | none => rfl
    | some q => rfl
  | some roles =>
    cases pri with
    | none =>
      simp [AnnotationsM.marshalJSON, parseAnnotationsM, jlookup, parseRoleList_map]
    | some q =>
      simp [AnnotationsM.marshalJSON, parseAnnotationsM, jlookup, parseRoleList_map]

theorem jlookup_append (k : String) (pre post : List (String × JSON)) :
    jlookup k (pre ++ post) =
      match jlookup k post with
      | some v => some v
      | none => jlookup k pre := by
  induction pre with
  | nil => cases h : jlookup k post <;> simp [jlookup, h]
  | cons p rest ih =>
    obtain ⟨k', v⟩ := p
    simp only [List.cons_append, jlookup, List.append_eq]
    rw [ih]
    cases h : jlookup k post <;> simp

theorem parseAnnField_marshal (ann : Option AnnotationsM) (pre : List (String × JSON))
    (hpre : jlookup "annotations" pre = none) :
    parseAnnField (pre ++ (match ann with
      | none => []
      | some a => [("annotations", a.marshalJSON)])) = some ann := by
  cases ann with
  | none =>
    simp only [parseAnnField, jlookup_append, jlookup, hpre]
  | some a =>
    simp only [parseAnnField, jlookup_append, jlookup]
    simp [hpre, parseAnnotationsM_marshal]

theorem parseTextContent_marshal (t : TextContent) :
    parseTextContent t.MarshalJSON = some t := by
  obtain ⟨tx, ann⟩ := t
  have hpre : jlookup "annotations" [("type", JSON.str "text"), ("text", JSON.str tx)] = none := by
    simp [jlookup]
  have hann := parseAnnField_marshal ann [("type", JSON.str "text"), ("text", JSON.str tx)] hpre
  cases ann with
  | none =>
    simp only [List.append_nil] at hann
    simp [TextContent.MarshalJSON, parseTextContent, jlookup, hann]
  | some a =>
    have hann' : parseAnnField [("type", JSON.str "text"), ("text", JSON.str tx),
        ("annotations", a.marshalJSON)] = some (some a) := by simpa using hann
    simp [TextContent.MarshalJSON, parseTextContent, jlookup, hann']

theorem parseTextResourceContent_marshal (t : TextResourceContent) :
    parseTextResourceContent t.MarshalJSON = some t := by
  obtain ⟨u, m, x⟩ := t
  by_cases hm : m = "" <;> by_cases hx : x = "" <;>
    simp [TextResourceContent.MarshalJSON, parseTextResourceContent, strFieldOrEmpty,
      jlookup, hm, hx]

theorem parseBlobResourceContent_marshal (b : BlobResourceContent) :
    parseBlobResourceContent b.MarshalJSON = some b := by
  obtain ⟨u, m, bs⟩ := b
  by_cases hm : m = "" <;>
    simp [BlobResourceContent.MarshalJSON, parseBlobResourceContent, strFieldOrEmpty,
      jlookup, hm, base64Decode_encode]

theorem textResource_no_data (t : TextResourceContent) :
    ∃ fs, t.MarshalJSON = JSON.obj fs ∧ jlookup "data" fs = none := by
  refine ⟨_, rfl, ?_⟩
  by_cases hm : t.mimeType = "" <;> by_cases hx : t.text = "" <;>
    simp [jlookup, hm, hx, jlookup_append]

theorem parseResourceContent_marshal (r : ResourceContent) :
    parseResourceContent r.MarshalJSON = some r := by
  cases r with
  | text t =>
    obtain ⟨fs, hfs, hnd⟩ := textResource_no_data t
    have := parseTextResourceContent_marshal t
    simp [ResourceContent.MarshalJSON, hfs, parseResourceContent, hnd, hfs ▸ this]
  | blob b =>
    have hd : ∃ fs, b.MarshalJSON = JSON.obj fs ∧ (jlookup "data" fs).isSome := by
      refine ⟨_, rfl, ?_⟩
      by_cases hm : b.mimeType = "" <;> simp [jlookup, hm, jlookup_append]
    obtain ⟨fs, hfs, hsome⟩ := hd
    have := parseBlobResourceContent_marshal b
    simp only [ResourceContent.MarshalJSON] at this ⊢
    rw [hfs] at this ⊢
    cases h : jlookup "data" fs with
    | none => rw [h] at hsome; simp at hsome
    | some v => simp [parseResourceContent, h, this]

theorem parseEmbeddedResource_marshal (e : EmbeddedResource) :
    parseEmbeddedResource e.MarshalJSON = some e := by
  obtain ⟨r, ann⟩ := e
  have hpre : jlookup "annotations" [("resource", r.MarshalJSON)] = none := by simp [jlookup]
  have hann := parseAnnField_marshal ann [("resource", r.MarshalJSON)] hpre
  have hr := parseResourceContent_marshal r
  cases ann with
  | none =>
    simp only [List.append_nil] at hann
    simp [EmbeddedResource.MarshalJSON, parseEmbeddedResource, jlookup, hr, hann]
  | some a =>
    have hann' : parseAnnField [("resource", r.MarshalJSON),
        ("annotations", a.marshalJSON)] = some (some a) := by simpa using hann
    simp [EmbeddedResource.MarshalJSON, parseEmbeddedResource, jlookup, hr, hann']

/-! ## Protocol model (protocol/protocol.go) -/

def ProtocolVersion20250326 : String := "2025-03-26"
def ProtocolVersion20241105 : String := "2024-11-05"
def LatestProtocolVersion : String := ProtocolVersion20250326

/-- Model of the `AvailableProtocolVersions` map; only key membership is used. -/
def AvailableProtocolVersions : List String :=
  [ProtocolVersion20250326, ProtocolVersion20241105]

def MethodPing : String := "ping"
def MethodInitialize : String := "initialize"
def MethodPromptsList : String := "prompts/list"
def MethodPromptsGet : String := "prompts/get"
def MethodToolsList : String := "tools/list"
def MethodToolsCall : String := "tools/call"
def MethodResourcesList : String := "resources/list"
def MethodResourcesRead : String := "resources/read"
def MethodResourceTemplatesList : String := "resources/templates/list"
def MethodResourcesSubscribe : String := "resources/subscribe"
def MethodResourcesUnsubscribe : String := "resources/unsubscribe"
def MethodNotificationsInitialized : String := "notifications/initialized"
def MethodNotificationsCancelled : String := "notifications/cancelled"
def MethodCompletionComplete : String := "completion/complete"
def MethodLoggingSetLevel : String := "logging/setLevel"

structure Implementation where
  name : String
  version : String

structure PromptCapability where
  listChanged : Bool

structure ResourceCapability where
  subscribe : Bool
  listChanged : Bool

structure ToolCapability where
  listChanged : Bool

/-- Model of `protocol.ServerCapabilities`; the capability structs are wrapped
in `Option` to model the nil-able Go pointers whose presence gates methods. -/
structure ServerCapabilities where
  prompts : Option PromptCapability
  resources : Option ResourceCapability
  tools : Option ToolCapability
  experimental : List (String × JSON)
  logging : Option Unit
  completions : Option Unit

structure PromptArgument where
  name : String
  description : String
  required : Bool

structure Prompt where
  name : String
  description : String
  arguments : List PromptArgument

structure ToolAnnotations where
  title : String
  readOnlyHint : Bool
  destructiveHint : Bool
  idempotentHint : Bool
  openWorldHint : Bool

structure Tool where
  name : String
  description : String
  inputSchema : JSON
  annots : Option ToolAnnotations

structure ResourceTemplate where
  uriTemplate : String
  name : String
  description : String
  mimeType : String
  annots : Option AnnotationsM

/-! ## Decoders (encoding/json semantics for the dispatcher's param structs)

Go's `json.Unmarshal(data, &structValue)`: nil data is an error; JSON `null`
leaves the zero value; a JSON object assigns matching fields (a missing field
keeps its zero value, a type-mismatched field is an error); any other JSON
value is an error. -/

def strField (fs : List (String × JSON)) (k : String) : Option String :=
  match jlookup k fs with
  | none => some ""
  | some JSON.null => some ""
  | some (JSON.str s) => some s
  | some _ => none

def boolField (fs : List (String × JSON)) (k : String) : Option Bool :=
  match jlookup k fs with
  | none => some false
  | some JSON.null => some false
  | some (JSON.bool b) => some b
  | some _ => none

def decodeStruct (params : Option JSON) (zero : α) (f : List (String × JSON) → Option α) :
    Option α :=
  match params with
  | none => none
  | some JSON.null => some zero
  | some (JSON.obj fs) => f fs
  | some _ => none

def subStructField (fs : List (String × JSON)) (k : String) (zero : α)
    (f : List (String × JSON) → Option α) : Option α :=
  match jlookup k fs with
  | none => some zero
  | some JSON.null => some zero
  | some (JSON.obj gs) => f gs
  | some _ => none

structure RootsCapability where
  listChanged : Bool

structure ClientCapabilities where
  experimental : List (String × JSON)
  roots : Option RootsCapability

structure InitializeRequestParams where
  protocolVersion : String
  capabilities : ClientCapabilities
  clientInfo : Implementation

def decodeImplementationFields (gs : List (String × JSON)) : Option Implementation := do
  let name ← strField gs "name"
  let version ← strField gs "version"
  pure ⟨name, version⟩

def decodeClientCapabilitiesFields (gs : List (String × JSON)) : Option ClientCapabilities := do
  let experimental ←
    match jlookup "experimental" gs with
    | none => some []
    | some JSON.null => some []
    | some (JSON.obj es) => some es
    | some _ => none
  let roots ←
    match jlookup "roots" gs with
    | none => some none
    | some JSON.null => some none
    | some (JSON.obj rs) => (boolField rs "listChanged").map (fun b => some ⟨b⟩)
    | some _ => none
  pure ⟨experimental, roots⟩

def decodeInitializeRequestParams (params : Option JSON) : Option InitializeRequestParams :=
  decodeStruct params ⟨"", ⟨[], none⟩, ⟨"", ""⟩⟩ fun fs => do
    let pv ← strField fs "protocolVersion"
    let caps ← subStructField fs "capabilities" ⟨[], none⟩ decodeClientCapabilitiesFields
    let ci ← subStructField fs "clientInfo" ⟨"", ""⟩ decodeImplementationFields
    pure ⟨pv, caps, ci⟩

structure GetPromptRequestParams where
  name : String
  arguments : Option JSON

def decodeGetPromptRequestParams (params : Option JSON) : Option GetPromptRequestParams :=
  decodeStruct params ⟨"", none⟩ fun fs => do
    let n ← strField fs "name"
    pure ⟨n, jlookup "arguments" fs⟩

structure CallToolRequestParams where
  name : String
  arguments : Option JSON

def decodeCallToolRequestParams (params : Option JSON) : Option CallToolRequestParams :=
  decodeStruct params ⟨"", none⟩ fun fs => do
    let n ← strField fs "name"
    pure ⟨n, jlookup "arguments" fs⟩

/-- Model of `mcp.subscribeResourceRequest` (embedded `protocol.Request` plus `uri`). -/
structure SubscribeResourceRequest where
  method : String
  params : Option JSON
  uri : String

def decodeSubscribeResourceRequest (params : Option JSON) : Option SubscribeResourceRequest :=
  decodeStruct params ⟨"", none, ""⟩ fun fs => do
    let m ← strField fs "method"
    let u ← strField fs "uri"
    pure ⟨m, jlookup "params" fs, u⟩

/-- Model of `mcp.ReadResourceRequest` (embedded `protocol.Request` plus `uri`). -/
structure ReadResourceRequest where
  method : String
  params : Option JSON
  uri : String

def decodeReadResourceRequest (params : Option JSON) : Option ReadResourceRequest :=
  decodeStruct params ⟨"", none, ""⟩ fun fs => do
    let m ← strField fs "method"
    let u ← strField fs "uri"
    pure ⟨m, jlookup "params" fs, u⟩

structure NotificationsCancelledRequestParams where
  requestId : String
  reason : String

def decodeNotificationsCancelledRequestParams (params : Option JSON) :
    Option NotificationsCancelledRequestParams :=
  decodeStruct params ⟨"", ""⟩ fun fs => do
    let rid ← strField fs "requestId"
    let rsn ← strField fs "reason"
    pure ⟨rid, rsn⟩

/-- Log levels as integers (protocol.LogLevel). -/
def logLevelFromName : String → Option Int
  | "debug" => some (-4)
  | "info" => some 0
  | "notice" => some 1
  | "warning" => some 4
  | "error" => some 8
  | "critical" => some 9
  | "alert" => some 10
  | "emergency" => some 11
  | _ => none

structure LoggingSetLevelRequestParams where
  level : Int

def decodeLoggingSetLevelRequestParams (params : Option JSON) :
    Option LoggingSetLevelRequestParams :=
  decodeStruct params ⟨0⟩ fun fs =>
    match jlookup "level" fs with
    | none => some ⟨0⟩
    | some (JSON.str s) => (logLevelFromName s).map (⟨·⟩)
    | some _ => none

structure Reference where
  type : String
  name : String

structure CompletionArgument where
  name : String
  value : String

structure CompleteRequestParams where
  ref : Reference
  argument : CompletionArgument

def decodeReferenceFields (gs : List (String × JSON)) : Option Reference := do
  let t ← strField gs "type"
  let n ← strField gs "name"
  pure ⟨t, n⟩

def decodeCompletionArgumentFields (gs : List (String × JSON)) : Option CompletionArgument := do
  let n ← strField gs "name"
  let v ← strField gs "value"
  pure ⟨n, v⟩

def decodeCompleteRequestParams (params : Option JSON) : Option CompleteRequestParams :=
  decodeStruct params ⟨⟨"", ""⟩, ⟨"", ""⟩⟩ fun fs => do
    let r ← subStructField fs "ref" ⟨"", ""⟩ decodeReferenceFields
    let a ← subStructField fs "argument" ⟨"", ""⟩ decodeCompletionArgumentFields
    pure ⟨r, a⟩

structure PaginationParams where
  cursor : String

def decodePaginationParams (params : Option JSON) : Option PaginationParams :=
  decodeStruct params ⟨""⟩ fun fs => (strField fs "cursor").map (⟨·⟩)

/-! ## Dispatcher (the Handler in the package's main file)

The Go `context.Context` is modelled by the one value the dispatcher ever
stores in it, the pagination cursor under `nextCursorKey`.  User handlers
(`serverHandler`, `ServerResourceHandler`, `ServerCompletionHandler`) are
Go interface values that may be nil, hence `Option` of function types; their
`(any, error)` results are `Except String JSON`.  Calling a method on a nil
interface panics in Go, modelled by `HandleOut.panicNilHandler`. -/

/-- A JSON-RPC 2.0 request ID is a number or a string. -/
inductive RequestID where
  | num (n : Int)
  | str (s : String)

structure Request where
  id : RequestID
  method : String
  params : Option JSON

/-- Model of the context: the slot written under `nextCursorKey`. -/
structure Ctx where
  cursor : Option String

/-- Lines 475-481: `ctx.Value(nextCursorKey{})` nil-check, then string assert. -/
def NextCursor (ctx : Ctx) : String × Bool :=
  match ctx.cursor with
  | none => ("", false)
  | some v => (v, true)

/-- Lines 465-471: unmarshal the request params as `protocol.PaginationParams`. -/
def nextCursorFromRequest (req : Request) : Option String :=
  (decodePaginationParams req.params).map (·.cursor)

abbrev ServerHandlerFn (Req : Type) := Ctx → String → Req → Except String JSON

structure ServerResourceHandler where
  HandleResourcesList : Ctx → Except String JSON
  HandleResourcesRead : Ctx → ReadResourceRequest → Except String JSON

abbrev ServerCompletionHandler := Ctx → CompleteRequestParams → Except String JSON

structure Handler where
  capabilities : ServerCapabilities
  implementation : Implementation
  prompts : List Prompt
  promptHandler : Option (ServerHandlerFn GetPromptRequestParams)
  tools : List Tool
  toolHandler : Option (ServerHandlerFn CallToolRequestParams)
  resourceHandler : Option ServerResourceHandler
  resourceTemplates : List ResourceTemplate
  subscribedResources : String → Bool
  completionHandler : Option ServerCompletionHandler
  /-- Model of the package-global `minimumLogLevel` `slog.LevelVar`. -/
  minLogLevel : Int

/-- Typed reply values; Go returns them as `any`. -/
inductive Reply where
  | emptyObj
  | noReply
  | initializeResult (protocolVersion : String) (capabilities : ServerCapabilities)
      (serverInfo : Implementation)
  | listPrompts (nextCursor : String) (prompts : List Prompt)
  | listResourceTemplates (nextCursor : String) (resourceTemplates : List ResourceTemplate)
  | listTools (nextCursor : String) (tools : List Tool)
  | handlerAny (v : JSON)
  | completionResult (completion : JSON)

inductive HandleErr where
  | invalidParams
  | methodNotFound
  | handlerFailed (method : String) (msg : String)
  | cursorFailed

inductive HandleOut where
  | ok (r : Reply)
  | err (e : HandleErr)
  | panicNilHandler

/-- Shallow embedding of `Handler.Handle` (the switch at lines 59-215 of the
package's main file).  The cancellation-registry store at entry and the
deferred delete are factored into `registerCancel` / `handleCancelled` below,
since their observable behaviour concerns a concurrent in-flight state; the
reply/route behaviour and the subscription and log-level state are here. -/
def Handler.Handle (h : Handler) (req : Request) : HandleOut × Handler :=
  let cctx : Ctx := { cursor := none }
  if req.method = MethodPing then
    (.ok .emptyObj, h)
  else if req.method = MethodInitialize then
    match decodeInitializeRequestParams req.params with
    | none => (.err .invalidParams, h)
    | some params =>
      let protocolVersion :=
        if AvailableProtocolVersions.contains params.protocolVersion then
          params.protocolVersion
        else LatestProtocolVersion
      (.ok (.initializeResult protocolVersion h.capabilities h.implementation), h)
  else if req.method = MethodNotificationsInitialized then
    (.ok .noReply, h)
  else if req.method = MethodPromptsList then
    (.ok (.listPrompts "" h.prompts), h)
  else if req.method = MethodPromptsGet then
    match decodeGetPromptRequestParams req.params with
    | none => (.err .invalidParams, h)
    | some params =>
      match h.promptHandler with
      | none => (.panicNilHandler, h)
      | some ph =>
        match ph cctx req.method params with
        | .error e => (.err (.handlerFailed req.method e), h)
        | .ok v => (.ok (.handlerAny v), h)
  else if req.method = MethodResourcesList then
    match h.resourceHandler with
    | none => (.err .methodNotFound, h)
    | some rh =>
      match nextCursorFromRequest req with
      | none => (.err .cursorFailed, h)
      | some cursor =>
        let cctx' := { cctx with cursor := some cursor }
        match rh.HandleResourcesList cctx' with
        | .error e => (.err (.handlerFailed req.method e), h)
        | .ok v => (.ok (.handlerAny v), h)
  else if req.method = MethodResourcesRead then
    match h.resourceHandler with
    | none => (.err .methodNotFound, h)
    | some rh =>
      match decodeReadResourceRequest req.params with
      | none => (.err .invalidParams, h)
      | some params =>
        match rh.HandleResourcesRead cctx params with
        | .error e => (.err (.handlerFailed req.method e), h)
        | .ok v => (.ok (.handlerAny v), h)
  else if req.method = MethodResourceTemplatesList then
    match h.capabilities.resources with
    | none => (.err .methodNotFound, h)
    | some _ => (.ok (.listResourceTemplates "" h.resourceTemplates), h)
  else if req.method = MethodResourcesSubscribe then
    match decodeSubscribeResourceRequest req.params with
    | none => (.err .invalidParams, h)
    | some params =>
      (.ok .emptyObj,
       { h with subscribedResources := fun u =>
          if u = params.uri then true else h.subscribedResources u })
  else if req.method = MethodResourcesUnsubscribe then
    match decodeSubscribeResourceRequest req.params with
    | none => (.err .invalidParams, h)
    | some params =>
      (.ok .emptyObj,
       { h with subscribedResources := fun u =>
          if u = params.uri then false else h.subscribedResources u })
  else if req.method = MethodToolsList then
    match h.capabilities.tools with
    | none => (.err .methodNotFound, h)
    | some _ => (.ok (.listTools "" h.tools), h)
  else if req.method = MethodToolsCall then
    match decodeCallToolRequestParams req.params with
    | none => (.err .invalidParams, h)
    | some params =>
      match h.toolHandler with
      | none => (.panicNilHandler, h)
      | some th =>
        match th cctx req.method params with
        | .error e => (.err (.handlerFailed req.method e), h)
        | .ok v => (.ok (.handlerAny v), h)
  else if req.method = MethodLoggingSetLevel then
    match decodeLoggingSetLevelRequestParams req.params with
    | none => (.err .invalidParams, h)
    | some params => (.ok .emptyObj, { h with minLogLevel := params.level })
  else if req.method = MethodNotificationsCancelled then
    match decodeNotificationsCancelledRequestParams req.params with
    | none => (.err .invalidParams, h)
    | some _ => (.ok .noReply, h)
  else if req.method = MethodCompletionComplete then
    match decodeCompleteRequestParams req.params with
    | none => (.err .invalidParams, h)
    | some params =>
      match h.completionHandler with
      | none => (.err .methodNotFound, h)
      | some ch =>
        match ch cctx params with
        | .error e => (.err (.handlerFailed req.method e), h)
        | .ok v => (.ok (.completionResult v), h)
  else
    (.err .methodNotFound, h)

/-- Lines 219-222: `IsSubscribed` loads the URI from the subscription map. -/
def Handler.IsSubscribed (h : Handler) (uri : String) : Bool :=
  h.subscribedResources uri

/-! ## Cancellation registry (sync.Map keyed by stringified request ID)

Cancel functions are identified by opaque tokens (`Nat`). -/

abbrev CancelRegistry := List (String × Nat)

/-- Store of `sync.Map`: the new binding shadows any previous one. -/
def syncMapStore (m : CancelRegistry) (k : String) (v : Nat) : CancelRegistry :=
  (k, v) :: m

def syncMapLoad (m : CancelRegistry) (k : String) : Option Nat :=
  (m.find? (fun p => p.1 == k)).map Prod.snd

def syncMapLoadAndDelete (m : CancelRegistry) (k : String) : Option Nat × CancelRegistry :=
  (syncMapLoad m k, m.filter (fun p => p.1 != k))

/-- Line 53: `fmt.Sprintf("%v", req.ID.Raw())` — the raw ID is an `int64` or a
string, and `%v` renders the number in decimal and the string as itself. -/
def RequestID.rawString : RequestID → String
  | .num n => toString n
  | .str s => s

/-- Lines 52-54: Handle stores the fresh cancel function under the stringified ID. -/
def registerCancel (m : CancelRegistry) (req : Request) (tok : Nat) : CancelRegistry :=
  syncMapStore m req.id.rawString tok

/-- Line 186: the `notifications/cancelled` branch computes
`fmt.Sprintf("%v", params.RequestID)`; `params.RequestID` is already a string,
so `%v` renders it unchanged. -/
def cancelledLookupKey (params : NotificationsCancelledRequestParams) : String :=
  params.requestId

/-- Lines 186-191: look up and delete the cancel function, firing it if found. -/
def handleCancelled (m : CancelRegistry) (params : NotificationsCancelledRequestParams) :
    Option Nat × CancelRegistry :=
  syncMapLoadAndDelete m (cancelledLookupKey params)

/-- Spec-side definition: the string form of a JSON-RPC request ID — the
decimal rendering of a numeric ID, the raw text of a string ID. -/
def idStringForm : RequestID → String
  | .num n => toString n
  | .str s => s

/-! ## Stdio transport (primary revision: token-bounded listener)

`stdioListener.Accept` performs a `select` between `ctx.Done()` and a send on
the buffered `tokens` channel (capacity `MaxConns`); the send succeeds exactly
when fewer than `MaxConns` tokens are outstanding, otherwise the call blocks.
The returned `stdioCloser` receives a token back on close. -/

structure StdioListenerSt where
  maxConns : Nat
  outstanding : Nat

inductive AcceptResult where
  | conn (next : StdioListenerSt)
  | blocked
  | ctxErr

/-- Lines 248-259 of the package's main file. -/
def StdioListenerSt.Accept (l : StdioListenerSt) (ctxDone : Bool) : AcceptResult :=
  if ctxDone then .ctxErr
  else if l.outstanding < l.maxConns then .conn { l with outstanding := l.outstanding + 1 }
  else .blocked

/-- The `stdioCloser` returned by Accept drains one token on Close. -/
def StdioListenerSt.closeConn (l : StdioListenerSt) : StdioListenerSt :=
  { l with outstanding := l.outstanding - 1 }

structure StdioTransportOptions where
  MaxConns : Nat

/-- Lines 315-340: `NewStdioTransport` defaults nil options and a zero
`MaxConns` to 5 and creates the listener with an empty token buffer. -/
def NewStdioTransport (opts : Option StdioTransportOptions) : StdioListenerSt :=
  let maxConns := match opts with
    | none => 5
    | some o => if o.MaxConns = 0 then 5 else o.MaxConns
  { maxConns := maxConns, outstanding := 0 }

/-! ## Code generator model (codegen/codegen.go)

Go reflection (`reflect.TypeOf`, invopop/jsonschema's `Reflect`) is a
deterministic function of the tool's structural input schema, so the model
takes that structure (`FieldSpec`) directly: field name, plain json tag,
Go type name, and the `jsonschema` enum values.  JSON-schema enum values as
seen by the generator are `[]any` holding `float64` or `string`. -/

inductive EnumVal where
  | num (q : Rat)
  | str (s : String)
deriving DecidableEq

/-- Check at lines 266-277: the value is a `float64` and integer-valued. -/
def EnumVal.isIntegerNum : EnumVal → Bool
  | .num q => q.den == 1
  | .str _ => false

/-- Lines 259-285 of codegen.go: `int` when all values are integer-valued
numbers, otherwise `string`. -/
def getEnumType (enumValues : List EnumVal) : String :=
  if enumValues.all EnumVal.isIntegerNum then "int" else "string"

def EnumVal.intVal : EnumVal → Int
  | .num q => q.num
  | .str _ => 0

/-- Rendering by `fmt.Sprintf("%v", val)`; exact for strings and
integer-valued numbers (the cases the claims exercise). -/
def EnumVal.render : EnumVal → String
  | .num q => if q.den = 1 then toString q.num else toString q
  | .str s => s

/-- Word capitalization as `cases.Title(language.Und)` behaves on a
single alphanumeric word: first rune upper, rest lower. -/
def titleWord (w : String) : String :=
  match w.toList with
  | [] => ""
  | c :: rest => String.mk (c.toUpper :: rest.map Char.toLower)

/-- Word split on `_`, with `String.splitOn` semantics. -/
def splitUnderscore : List Char → List (List Char)
  | [] => [[]]
  | c :: rest =>
    let r := splitUnderscore rest
    if c = '_' then [] :: r
    else
      match r with
      | [] => [[c]]
      | w :: ws => (c :: w) :: ws

/-- Lines 593-603 of codegen.go: replace `;` by `_`, delete spaces, split on
`_`, title-case each word, join.  The replacer's patterns are single
characters, so the replacement is done character-wise. -/
def pascalCase (name : String) : String :=
  let chars := (name.toList.map (fun c => if c = ';' then '_' else c)).filter (fun c => c ≠ ' ')
  String.join ((splitUnderscore chars).map (fun w => titleWord (String.mk w)))

structure FieldSpec where
  goName : String
  jsonTag : String
  goType : String
  enumVals : List EnumVal

structure ToolDef where
  name : String
  description : String
  fields : List FieldSpec

/-- Content of the `map[string][]any` built by `getEnumFields`
(lines 229-257): the nonempty-enum fields, canonically in declaration order.
Its Go map iteration order is arbitrary; emission functions below take the
iteration order as an explicit list. -/
def getEnumFieldsCanonical (t : ToolDef) : List (String × List EnumVal) :=
  t.fields.filterMap (fun f =>
    if f.enumVals.isEmpty then none else some (f.jsonTag, f.enumVals))

/-- First-wins association lookup; on nodup keys this is Go map indexing. -/
def alookup (k : String) : List (String × α) → Option α
  | [] => none
  | (k', v) :: rest => if k' = k then some v else alookup k rest

/-- Lexicographic comparison on code points, the order `strings.Compare`
induces on UTF-8 strings (a computable stand-in for the noncomputable
library order on String). -/
def charListLe : List Char → List Char → Bool
  | [], _ => true
  | _ :: _, [] => false
  | a :: as, b :: bs =>
    if a = b then charListLe as bs
    else decide (a < b)

def strLe (a b : String) : Bool := charListLe a.toList b.toList

theorem charListLe_total : ∀ l₁ l₂ : List Char,
    charListLe l₁ l₂ = true ∨ charListLe l₂ l₁ = true
  | [], _ => Or.inl rfl
  | _ :: _, [] => Or.inr rfl
  | a :: as, b :: bs => by
    by_cases hab : a = b
    · subst hab
      simpa [charListLe] using charListLe_total as bs
    · rcases lt_or_gt_of_ne hab with h | h
      · exact Or.inl (by simp [charListLe, hab, h])
      · exact Or.inr (by simp [charListLe, Ne.symm hab, h])

theorem charListLe_trans : ∀ l₁ l₂ l₃ : List Char,
    charListLe l₁ l₂ = true → charListLe l₂ l₃ = true → charListLe l₁ l₃ = true
  | [], _, _ => fun _ _ => rfl
  | _ :: _, [], _ => fun h _ => by simp [charListLe] at h
  | _ :: _, _ :: _, [] => fun _ h => by simp [charListLe] at h
  | a :: as, b :: bs, c :: cs => fun h1 h2 => by
    by_cases hab : a = b <;> by_cases hbc : b = c
    · subst hab; subst hbc
      simp only [charListLe, if_pos rfl] at h1 h2 ⊢
      exact charListLe_trans as bs cs h1 h2
    · subst hab
      simp only [charListLe, if_pos rfl] at h1
      simp only [charListLe, if_neg hbc] at h2 ⊢
      exact h2
    · subst hbc
      simp only [charListLe, if_neg hab] at h1 ⊢
      exact h1
    · simp only [charListLe, if_neg hab, decide_eq_true_eq] at h1
      simp only [charListLe, if_neg hbc, decide_eq_true_eq] at h2
      have hac : a < c := lt_trans h1 h2
      simp [charListLe, ne_of_lt hac, hac]

theorem charListLe_antisymm : ∀ l₁ l₂ : List Char,
    charListLe l₁ l₂ = true → charListLe l₂ l₁ = true → l₁ = l₂
  | [], [] => fun _ _ => rfl
  | [], _ :: _ => fun _ h => by simp [charListLe] at h
  | _ :: _, [] => fun h _ => by simp [charListLe] at h
  | a :: as, b :: bs => fun h1 h2 => by
    by_cases hab : a = b
    · subst hab
      simp only [charListLe, if_pos rfl] at h1 h2
      rw [charListLe_antisymm as bs h1 h2]
    · simp only [charListLe, if_neg hab, decide_eq_true_eq] at h1
      simp only [charListLe, if_neg (Ne.symm hab), decide_eq_true_eq] at h2
      exact absurd h2 (lt_asymm h1)

instance : IsTotal String (fun a b => strLe a b = true) :=
  ⟨fun a b => charListLe_total a.toList b.toList⟩

instance : IsTrans String (fun a b => strLe a b = true) :=
  ⟨fun a b c => charListLe_trans a.toList b.toList c.toList⟩

instance : IsAntisymm String (fun a b => strLe a b = true) :=
  ⟨fun a b h1 h2 => by
    have h := charListLe_antisymm a.toList b.toList h1 h2
    cases a; cases b
    simp only [String.toList] at h
    exact congrArg String.mk h⟩

/-- Sorting at lines 329-344: `slices.SortFunc` ascending by integer value for
int enums, by `strings.Compare` of the rendered value for string enums. -/
def sortEnumValues (enumType : String) (vals : List EnumVal) : List EnumVal :=
  if enumType = "int" then
    List.insertionSort (fun a b => a.intVal ≤ b.intVal) vals
  else
    List.insertionSort (fun a b => strLe a.render b.render = true) vals

/-- Lines 316-360: the nominal type and its constant block for one enum field. -/
def enumConstLines (toolName fieldName : String) (enumValues : List EnumVal) : List String :=
  let enumTypeName := toolName ++ pascalCase fieldName ++ "Type"
  let enumType := getEnumType enumValues
  ["// " ++ enumTypeName ++ " represents possible values for " ++ fieldName,
   "type " ++ enumTypeName ++ " " ++ enumType,
   "",
   "const ("] ++
  (sortEnumValues enumType enumValues).map (fun v =>
    let strVal := v.render
    let constName := pascalCase strVal
    if enumType = "int" then
      "\t" ++ enumTypeName ++ constName ++ " " ++ enumTypeName ++ " = " ++ toString v.intVal
    else
      "\t" ++ enumTypeName ++ constName ++ " " ++ enumTypeName ++ " = \"" ++ strVal ++ "\"") ++
  [")", ""]

/-- Lines 308-361: sort the enum-field names, then emit each field's type and
constants.  `ef` is the map-iteration order handed to the loop. -/
def toolEnumSectionLines (t : ToolDef) (ef : List (String × List EnumVal)) : List String :=
  let toolName := pascalCase t.name
  let fieldNames := List.insertionSort (fun a b : String => strLe a b = true) (ef.map Prod.fst)
  (fieldNames.map (fun fieldName =>
    match alookup fieldName ef with
    | some enumValues => enumConstLines toolName fieldName enumValues
    | none => [])).flatten

/-- Lines 363-384: the typed request struct; enum-tagged fields use the
generated nominal type. -/
def toolRequestStructLines (t : ToolDef) (ef : List (String × List EnumVal)) : List String :=
  let toolName := pascalCase t.name
  ["// Tool" ++ toolName ++ "Request contains input parameters for the " ++ t.name ++ " tool.",
   "type Tool" ++ toolName ++ "Request struct \x7b"] ++
  t.fields.map (fun f =>
    match alookup f.jsonTag ef with
    | some _ =>
      "\t" ++ f.goName ++ " " ++ toolName ++ pascalCase f.jsonTag ++ "Type" ++
        " `json:\"" ++ f.jsonTag ++ "\"`"
    | none =>
      "\t" ++ f.goName ++ " " ++ f.goType ++ " `json:\"" ++ f.jsonTag ++ "\"`") ++
  ["\x7d", ""]

/-- Lines 287-385: `generateToolHandlers`, with the per-tool map-iteration
order supplied by `oracle`. -/
def generateToolHandlersLines (tools : List ToolDef)
    (oracle : ToolDef → List (String × List EnumVal)) : List String :=
  if tools.isEmpty then []
  else
    ["// ServerToolHandler is the interface for tool handlers.",
     "type ServerToolHandler interface \x7b"] ++
    tools.map (fun t =>
      "\tHandleTool" ++ pascalCase t.name ++ "(ctx context.Context, req *Tool" ++
        pascalCase t.name ++ "Request) (*mcp.CallToolResult, error)") ++
    ["\x7d", ""] ++
    (tools.map (fun t =>
      toolEnumSectionLines t (oracle t) ++ toolRequestStructLines t (oracle t))).flatten

/-! Remaining generator sections.  Quoting by `%q` is modelled for strings
needing only quote/backslash escapes. -/

def goQuote (s : String) : String :=
  "\"" ++ String.mk ((s.toList.map (fun c =>
    if c = '\\' then ['\\', '\\'] else if c = '\"' then ['\\', '\"'] else [c])).flatten) ++ "\""

structure GenPromptArgument where
  name : String
  description : String
  required : Bool

structure GenPrompt where
  name : String
  description : String
  arguments : List GenPromptArgument

structure GenResourceTemplate where
  uriTemplate : String
  name : String
  description : String
  mimeType : String

structure GenCapabilities where
  prompts : Bool
  resources : Option (Bool × Bool)
  tools : Bool
  completions : Bool
  logging : Bool

structure GenServerDefinition where
  capabilities : GenCapabilities
  implementation : Implementation
  prompts : List GenPrompt
  resourceTemplates : List GenResourceTemplate
  tools : List ToolDef

/-- Lines 204-226: prompt handler interface and request structs. -/
def generatePromptHandlersLines (prompts : List GenPrompt) : List String :=
  ["// ServerPromptHandler is the interface for prompt handlers.",
   "type ServerPromptHandler interface \x7b"] ++
  prompts.map (fun p =>
    "\tHandlePrompt" ++ pascalCase p.name ++ "(ctx context.Context, req *Prompt" ++
      pascalCase p.name ++ "Request) (*mcp.GetPromptResult, error)") ++
  ["\x7d", ""] ++
  (prompts.map (fun p =>
    ["// Prompt" ++ pascalCase p.name ++ "Request contains input parameters for the " ++
       p.name ++ " prompt.",
     "type Prompt" ++ pascalCase p.name ++ "Request struct \x7b"] ++
    p.arguments.map (fun a =>
      "\t" ++ pascalCase a.name ++ " string `json:\"" ++ a.name ++ "\"`") ++
    ["\x7d", ""])).flatten

/-- Lines 445-465: the resource-template catalog. -/
def generateResourceTemplateListLines (ts : List GenResourceTemplate) : List String :=
  if ts.isEmpty then []
  else
    ["// ResourceTemplateList contains all available ResourceTemplates.",
     "var ResourceTemplateList = []mcp.ResourceTemplate\x7b"] ++
    (ts.map (fun rt =>
      ["\t\x7b",
       "\t\tURITemplate: \"" ++ rt.uriTemplate ++ "\",",
       "\t\tName: \"" ++ rt.name ++ "\",",
       "\t\tDescription: \"" ++ rt.description ++ "\","] ++
      (if rt.mimeType = "" then [] else ["\t\tMimeType: \"" ++ rt.mimeType ++ "\","]) ++
      ["\t\x7d,"])).flatten ++
    ["\x7d", ""]

/-- Lines 388-411: the prompt catalog. -/
def generatePromptListLines (prompts : List GenPrompt) : List String :=
  ["// PromptList contains all available prompts.",
   "var PromptList = []protocol.Prompt\x7b"] ++
  (prompts.map (fun p =>
    ["\t\x7b",
     "\t\tName: \"" ++ p.name ++ "\",",
     "\t\tDescription: \"" ++ p.description ++ "\",",
     "\t\tArguments: []protocol.PromptArgument\x7b"] ++
    (p.arguments.map (fun a =>
      ["\t\t\t\x7b",
       "\t\t\t\tName: \"" ++ a.name ++ "\",",
       "\t\t\t\tDescription: \"" ++ a.description ++ "\","] ++
      (if a.required then ["\t\t\t\tRequired: true,"] else []) ++
      ["\t\t\t\x7d,"])).flatten ++
    ["\t\t\x7d,", "\t\x7d,"])).flatten ++
  ["\x7d", ""]

def schemaTypeOfGoType (t : String) : String :=
  if t = "string" then "string"
  else if t = "bool" then "boolean"
  else if t = "float64" ∨ t = "float32" then "number"
  else "integer"

def enumValJSONRender : EnumVal → String
  | .str s => goQuote s
  | .num q => if q.den = 1 then toString q.num else toString q

/-- Modelled from the deterministic invopop/jsonschema reflection plus
`schema.MarshalJSON`: a canonical rendering of the structural schema, with
properties in declaration order and every plain-tagged field required. -/
def toolSchemaJSON (t : ToolDef) : String :=
  "\x7b\"$schema\":\"https://json-schema.org/draft/2020-12/schema\",\"properties\":\x7b" ++
  String.intercalate "," (t.fields.map (fun f =>
    goQuote f.jsonTag ++ ":\x7b" ++
    (if f.enumVals.isEmpty then ""
     else "\"enum\":[" ++ String.intercalate "," (f.enumVals.map enumValJSONRender) ++ "],") ++
    "\"type\":" ++ goQuote (schemaTypeOfGoType f.goType) ++ "\x7d")) ++
  "\x7d,\"additionalProperties\":false,\"type\":\"object\",\"required\":[" ++
  String.intercalate "," (t.fields.map (fun f => goQuote f.jsonTag)) ++ "]\x7d"

/-- Lines 413-443: schema raw-message variables and the tool catalog. -/
def generateToolListLines (tools : List ToolDef) : List String :=
  if tools.isEmpty then []
  else
    ["// JSON Schema type definitions generated from inputSchema",
     "var ("] ++
    tools.map (fun t =>
      "\tTool" ++ pascalCase t.name ++ "InputSchema = json.RawMessage(`" ++
        toolSchemaJSON t ++ "`)") ++
    [")",
     "// ToolList contains all available tools.",
     "var ToolList = []protocol.Tool\x7b"] ++
    (tools.map (fun t =>
      ["\t\x7b",
       "\t\tName: " ++ goQuote t.name ++ ",",
       "\t\tDescription: " ++ goQuote t.description ++ ",",
       "\t\tInputSchema: Tool" ++ pascalCase t.name ++ "InputSchema,",
       "\t\x7d,"])).flatten ++
    ["\x7d", ""]

/-- Lines 467-591: the `NewHandler` constructor with its dispatch shims. -/
def generateNewHandlerLines (d : GenServerDefinition) : List String :=
  let handlerParams :=
    (if d.capabilities.prompts then ["promptHandler ServerPromptHandler"] else []) ++
    (if d.capabilities.resources.isSome then ["resourceHandler mcp.ServerResourceHandler"] else []) ++
    (if d.capabilities.tools then ["toolHandler ServerToolHandler"] else []) ++
    (if d.capabilities.completions then ["completionHandler mcp.ServerCompletionHandler"] else [])
  ["// NewHandler creates a new MCP handler.",
   "func NewHandler(" ++ String.intercalate ", " handlerParams ++ ") *mcp.Handler \x7b",
   "\th := &mcp.Handler\x7b\x7d",
   "\th.Capabilities = protocol.ServerCapabilities\x7b"] ++
  (if d.capabilities.prompts then ["\t\tPrompts: &protocol.PromptCapability\x7b\x7d,"] else []) ++
  (match d.capabilities.resources with
   | none => []
   | some (sub, lc) =>
     ["\t\tResources: &protocol.ResourceCapability\x7b",
      "\t\t\tSubscribe: " ++ (if sub then "true" else "false") ++ ",",
      "\t\t\tListChanged: " ++ (if lc then "true" else "false") ++ ",",
      "\t\t\x7d,"]) ++
  (if d.capabilities.tools then ["\t\tTools: &protocol.ToolCapability\x7b\x7d,"] else []) ++
  (if d.capabilities.completions then ["\t\tCompletions: &protocol.CompletionsCapability\x7b\x7d,"] else []) ++
  (if d.capabilities.logging then ["\t\tLogging: &protocol.LoggingCapability\x7b\x7d,"] else []) ++
  ["\t\x7d",
   "\th.Implementation = protocol.Implementation\x7b",
   "\t\tName: \"" ++ d.implementation.name ++ "\",",
   "\t\tVersion: \"" ++ d.implementation.version ++ "\",",
   "\t\x7d"] ++
  (if d.capabilities.prompts then
    ["\th.Prompts = PromptList",
     "\th.PromptHandler = protocol.ServerHandlerFunc[protocol.GetPromptRequestParams](func(ctx context.Context, method string, req protocol.GetPromptRequestParams) (any, error) \x7b",
     "\t\tswitch method \x7b",
     "\t\tcase \"prompts/get\":",
     "\t\t\tswitch req.Name \x7b"] ++
    (d.prompts.map (fun p =>
      ["\t\t\tcase \"" ++ p.name ++ "\":",
       "\t\t\t\tvar in Prompt" ++ pascalCase p.name ++ "Request",
       "\t\t\t\tif err := json.Unmarshal(req.Arguments, &in); err != nil \x7b",
       "\t\t\t\t\treturn nil, err",
       "\t\t\t\t\x7d",
       "\t\t\t\treturn promptHandler.HandlePrompt" ++ pascalCase p.name ++ "(ctx, &in)"])).flatten ++
    ["\t\t\tdefault:",
     "\t\t\t\treturn nil, fmt.Errorf(\"prompt not found: %s\", req.Name)",
     "\t\t\t\x7d",
     "\t\tdefault:",
     "\t\t\treturn nil, fmt.Errorf(\"method %s not found\", method)",
     "\t\t\x7d",
     "\t\x7d)"]
   else []) ++
  (if d.capabilities.resources.isSome then ["\th.ResourceHandler = resourceHandler"] else []) ++
  (if d.capabilities.resources.isSome then ["\th.ResourceTemplates = ResourceTemplateList"] else []) ++
  (if d.capabilities.tools then
    ["\th.Tools = ToolList",
     "\th.ToolHandler = protocol.ServerHandlerFunc[protocol.CallToolRequestParams](func(ctx context.Context, method string, req protocol.CallToolRequestParams) (any, error) \x7b",
     "\t\tidx := slices.IndexFunc(ToolList, func(t protocol.Tool) bool \x7b",
     "\t\t\treturn t.Name == req.Name",
     "\t\t\x7d)",
     "\t\tif idx == -1 \x7b",
     "\t\t\treturn nil, fmt.Errorf(\"tool not found: %s\", req.Name)",
     "\t\t\x7d",
     "\t\tswitch method \x7b",
     "\t\tcase \"tools/call\":",
     "\t\t\tswitch req.Name \x7b"] ++
    (d.tools.map (fun t =>
      ["\t\t\tcase \"" ++ t.name ++ "\":",
       "\t\t\t\tvar in Tool" ++ pascalCase t.name ++ "Request",
       "\t\t\t\tif err := json.Unmarshal(req.Arguments, &in); err != nil \x7b",
       "\t\t\t\t\treturn nil, err",
       "\t\t\t\t\x7d",
       "\t\t\t\tinputSchema, _ := ToolList[idx].InputSchema.(json.RawMessage)",
       "\t\t\t\tif err := protocol.ValidateByJSONSchema(string(inputSchema), in); err != nil \x7b",
       "\t\t\t\t\treturn nil, err",
       "\t\t\t\t\x7d",
       "\t\t\t\treturn toolHandler.HandleTool" ++ pascalCase t.name ++ "(ctx, &in)"])).flatten ++
    ["\t\t\tdefault:",
     "\t\t\t\treturn nil, fmt.Errorf(\"tool not found: %s\", req.Name)",
     "\t\t\t\x7d",
     "\t\tdefault:",
     "\t\t\treturn nil, fmt.Errorf(\"method %s not found\", method)",
     "\t\t\x7d",
     "\t\x7d)"]
   else []) ++
  (if d.capabilities.completions then ["\th.CompletionHandler = completionHandler"] else []) ++
  ["\treturn h",
   "\x7d"]

/-- Lines 130-202: `Generate` — header, imports, the six sections, then the
`imports.Process` post-pass (modelled as an arbitrary but fixed function of
the emitted text, quantified in the determinism theorem). -/
def generateLines (d : GenServerDefinition) (pkgName : String)
    (oracle : ToolDef → List (String × List EnumVal)) : List String :=
  let pkg := if pkgName = "" then "mcpgen" else pkgName
  ["// Code generated by mcp-codegen. DO NOT EDIT.",
   "package " ++ pkg,
   "import (",
   "\t\"context\"",
   "\t\"encoding/json\"",
   "\t\"fmt\"",
   "\t\"slices\"",
   "\t\"strconv\"",
   "\tmcp \"github.com/ktr0731/go-mcp\"",
   "\t\"github.com/ktr0731/go-mcp/protocol\"",
   ")"] ++
  generatePromptHandlersLines d.prompts ++
  generateResourceTemplateListLines d.resourceTemplates ++
  generateToolHandlersLines d.tools oracle ++
  generatePromptListLines d.prompts ++
  generateToolListLines d.tools ++
  generateNewHandlerLines d

def Generate (d : GenServerDefinition) (pkgName : String)
    (oracle : ToolDef → List (String × List EnumVal))
    (process : String → String) : String :=
  process (String.join ((generateLines d pkgName oracle).map (· ++ "\n")))

/-! ## Runtime behaviour of the generated tools/call dispatch shim

The generated `ToolHandler` (lines 548-582 of codegen.go) unmarshals the raw
`arguments` into the typed request, validates the *typed value* against the
reflected JSON schema via `protocol.ValidateByJSONSchema` (protocol.go lines
96-112, gojsonschema with a `NewGoLoader` document — i.e. the re-marshalled
struct), and only then calls the user handler.  Typed request values are
association lists `jsonTag ↦ GoVal` in field order. -/

inductive GoVal where
  | str (s : String)
  | int (n : Int)
  | num (q : Rat)
  | bool (b : Bool)
deriving DecidableEq

/-- The Go type json.Unmarshal decodes a generated struct field into: the
generated nominal enum type has underlying `getEnumType`, otherwise the
declared field type. -/
def fieldDecodeTyName (f : FieldSpec) : String :=
  if f.enumVals.isEmpty then f.goType else getEnumType f.enumVals

def zeroGoVal (t : String) : GoVal :=
  if t = "string" then .str ""
  else if t = "bool" then .bool false
  else if t = "float64" ∨ t = "float32" then .num 0
  else .int 0

/-- encoding/json into a field of Go type `t`: null keeps the zero value, a
matching JSON value decodes, anything else errors (a fractional number cannot
decode into an int). -/
def unmarshalGoVal (t : String) (j : JSON) : Option GoVal :=
  match j with
  | JSON.null => some (zeroGoVal t)
  | JSON.str s => if t = "string" then some (.str s) else none
  | JSON.bool b => if t = "bool" then some (.bool b) else none
  | JSON.num q =>
    if t = "float64" ∨ t = "float32" then some (.num q)
    else if t = "string" ∨ t = "bool" then none
    else if q.den = 1 then some (.int q.num) else none
  | _ => none

/-- Field-by-field decoding of the generated struct: an absent key keeps the
zero value, a present key must decode at the field's type. -/
def unmarshalFields (fs : List (String × JSON)) : List FieldSpec → Option (List (String × GoVal))
  | [] => some []
  | f :: rest => do
    let v ← match jlookup f.jsonTag fs with
      | none => some (zeroGoVal (fieldDecodeTyName f))
      | some j => unmarshalGoVal (fieldDecodeTyName f) j
    let tail ← unmarshalFields fs rest
    pure ((f.jsonTag, v) :: tail)

/-- The generated `json.Unmarshal(req.Arguments, &in)`: nil raw arguments are
an error, `null` leaves the zero struct, an object assigns matching keys. -/
def unmarshalGenerated (t : ToolDef) (args : Option JSON) :
    Option (List (String × GoVal)) :=
  match args with
  | none => none
  | some JSON.null => some (t.fields.map (fun f => (f.jsonTag, zeroGoVal (fieldDecodeTyName f))))
  | some (JSON.obj fs) => unmarshalFields fs t.fields
  | some _ => none

def goValToJSON : GoVal → JSON
  | .str s => .str s
  | .int n => .num (n : Rat)
  | .num q => .num q
  | .bool b => .bool b

/-- gojsonschema's `NewGoLoader` document: the typed request re-marshalled.
Every generated field has a plain json tag, so every property is present. -/
def remarshalGenerated (vals : List (String × GoVal)) : JSON :=
  JSON.obj (vals.map (fun p => (p.1, goValToJSON p.2)))

structure SchemaProp where
  sty : String
  enumVals : List EnumVal

/-- Properties of the reflected schema, in declaration order. -/
def toolSchemaProps (t : ToolDef) : List (String × SchemaProp) :=
  t.fields.map (fun f => (f.jsonTag, ⟨schemaTypeOfGoType f.goType, f.enumVals⟩))

/-- invopop marks every plain-tagged struct field required. -/
def toolSchemaRequired (t : ToolDef) : List String := t.fields.map (·.jsonTag)

def jsonTypeOk (sty : String) (j : JSON) : Bool :=
  match j with
  | JSON.str _ => sty = "string"
  | JSON.bool _ => sty = "boolean"
  | JSON.num q => sty = "number" ∨ (sty = "integer" ∧ q.den = 1)
  | _ => false

def enumMatches (v : EnumVal) (j : JSON) : Bool :=
  match v, j with
  | .num q, JSON.num q' => q == q'
  | .str s, JSON.str s' => s == s'
  | _, _ => false

def enumValueOk (enumVals : List EnumVal) (j : JSON) : Bool :=
  enumVals.isEmpty || enumVals.any (fun v => enumMatches v j)

/-- Model of `protocol.ValidateByJSONSchema` (gojsonschema) on the class of
schemas the generator reflects: required properties present, each property
known (`additionalProperties: false`), type-correct and enum-admissible. -/
def ValidateByJSONSchema (props : List (String × SchemaProp)) (required : List String)
    (doc : JSON) : Bool :=
  match doc with
  | JSON.obj fs =>
    required.all (fun r => (jlookup r fs).isSome) &&
    fs.all (fun p =>
      match alookup p.1 props with
      | none => false
      | some sp => jsonTypeOk sp.sty p.2 && enumValueOk sp.enumVals p.2)
  | _ => false

/-- The generated per-tool `case` body (codegen.go lines 562-573): unmarshal,
validate the typed value, then call the user handler. -/
def generatedShim (t : ToolDef) (userHandler : List (String × GoVal) → Except String JSON)
    (args : Option JSON) : Except String JSON :=
  match unmarshalGenerated t args with
  | none => .error "unmarshal arguments"
  | some in_ =>
    if ValidateByJSONSchema (toolSchemaProps t) (toolSchemaRequired t)
        (remarshalGenerated in_) then
      userHandler in_
    else .error "invalid tool arguments"

/-- The generated `h.ToolHandler` closure (codegen.go lines 548-582). -/
def generatedToolHandler (tools : List ToolDef)
    (userHandler : Ctx → String → List (String × GoVal) → Except String JSON) :
    ServerHandlerFn CallToolRequestParams := fun ctx method params =>
  match tools.find? (fun t => t.name == params.name) with
  | none => .error ("tool not found: " ++ params.name)
  | some t =>
    if method = "tools/call" then
      generatedShim t (userHandler ctx t.name) params.arguments
    else .error ("method " ++ method ++ " not found")

/-! ## Theorems -/

/-- A handler with nothing configured, used to instantiate witnesses. -/
def baseHandler : Handler :=
  { capabilities :=
      { prompts := none, resources := none, tools := none, experimental := [],
        logging := none, completions := none },
    implementation := ⟨"srv", "1.0"⟩,
    prompts := [], promptHandler := none,
    tools := [], toolHandler := none,
    resourceHandler := none, resourceTemplates := [],
    subscribedResources := fun _ => false,
    completionHandler := none, minLogLevel := 0 }

/-- C3: the registration key (stringified raw ID) and the cancellation-branch
lookup key (the params' requestId, itself rendered by `%v` as the identity on
strings) agree on the string form of the request ID, for numeric and string
IDs alike, so the stored cancel function is found and fired. -/
theorem cancel_key_normalization (m : CancelRegistry) (req : Request) (tok : Nat)
    (reason : String) :
    req.id.rawString = idStringForm req.id ∧
    cancelledLookupKey ⟨idStringForm req.id, reason⟩ = idStringForm req.id ∧
    (handleCancelled (registerCancel m req tok) ⟨idStringForm req.id, reason⟩).1 = some tok := by
  refine ⟨?_, rfl, ?_⟩
  · cases req.id <;> rfl
  · simp [handleCancelled, registerCancel, syncMapLoadAndDelete, syncMapLoad, syncMapStore,
      cancelledLookupKey, List.find?]
    cases req.id <;> simp [RequestID.rawString, idStringForm]

/-- C4: initialize echoes a recognized protocolVersion and substitutes the
latest version "2025-03-26" for an unrecognized one. -/
theorem initialize_version_negotiation (h : Handler) (req : Request)
    (p : InitializeRequestParams)
    (hm : req.method = MethodInitialize)
    (hp : decodeInitializeRequestParams req.params = some p) :
    (p.protocolVersion ∈ AvailableProtocolVersions →
      (h.Handle req).1 =
        .ok (.initializeResult p.protocolVersion h.capabilities h.implementation)) ∧
    (p.protocolVersion ∉ AvailableProtocolVersions →
      (h.Handle req).1 =
        .ok (.initializeResult "2025-03-26" h.capabilities h.implementation)) := by
  constructor
  · intro hmem
    have hc : AvailableProtocolVersions.contains p.protocolVersion = true :=
      List.elem_iff.mpr hmem
    simp only [Handler.Handle, hm]
    simp only [MethodPing, MethodInitialize]
    simp only [hp, hc]
    simp
  · intro hmem
    have hc : AvailableProtocolVersions.contains p.protocolVersion = false := by
      simpa using hmem
    simp only [Handler.Handle, hm]
    simp only [MethodPing, MethodInitialize]
    simp only [hp, hc]
    simp [LatestProtocolVersion, ProtocolVersion20250326]

theorem initialize_version_negotiation_witness :
    ((⟨.num 1, MethodInitialize,
        some (JSON.obj [("protocolVersion", JSON.str "2024-11-05")])⟩ : Request).method
      = MethodInitialize) ∧
    ((baseHandler.Handle ⟨.num 1, MethodInitialize,
        some (JSON.obj [("protocolVersion", JSON.str "2024-11-05")])⟩).1 =
      .ok (.initializeResult "2024-11-05" baseHandler.capabilities baseHandler.implementation)) ∧
    ((baseHandler.Handle ⟨.num 2, MethodInitialize,
        some (JSON.obj [("protocolVersion", JSON.str "1999-01-01")])⟩).1 =
      .ok (.initializeResult "2025-03-26" baseHandler.capabilities baseHandler.implementation)) := by
  refine ⟨rfl, ?_, ?_⟩
  · exact (initialize_version_negotiation baseHandler
      ⟨.num 1, MethodInitialize, some (JSON.obj [("protocolVersion", JSON.str "2024-11-05")])⟩
      ⟨"2024-11-05", ⟨[], none⟩, ⟨"", ""⟩⟩ rfl rfl).1 (by decide)
  · exact (initialize_version_negotiation baseHandler
      ⟨.num 2, MethodInitialize, some (JSON.obj [("protocolVersion", JSON.str "1999-01-01")])⟩
      ⟨"1999-01-01", ⟨[], none⟩, ⟨"", ""⟩⟩ rfl rfl).2 (by decide)

/-- C5 counterexample: with default options (MaxConns 5), the first Accept
succeeds and a second Accept succeeds as well instead of returning an error. -/
theorem stdio_accept_twice_counterexample :
    (NewStdioTransport none).Accept false = .conn ⟨5, 1⟩ ∧
    (StdioListenerSt.Accept ⟨5, 1⟩ false) = .conn ⟨5, 2⟩ ∧
    (StdioListenerSt.Accept ⟨5, 1⟩ false) ≠ .ctxErr := by
  refine ⟨rfl, rfl, ?_⟩
  intro hcontra
  rw [show (StdioListenerSt.Accept ⟨5, 1⟩ false) = .conn ⟨5, 2⟩ from rfl] at hcontra
  exact AcceptResult.noConfusion hcontra

/-- C5 (amended): Accept acquires one of MaxConns buffered tokens (5 by
default): it succeeds whenever fewer than maxConns connections are
outstanding, blocks — rather than erroring — at capacity, returns an error
only when the context is done, and closing a connection releases its token. -/
theorem stdio_accept_token_semantics (l : StdioListenerSt) :
    l.Accept true = .ctxErr ∧
    l.Accept false =
      (if l.outstanding < l.maxConns then
        .conn { l with outstanding := l.outstanding + 1 }
       else .blocked) ∧
    l.closeConn.outstanding = l.outstanding - 1 ∧
    (NewStdioTransport none).maxConns = 5 ∧
    (NewStdioTransport none).outstanding = 0 := by
  refine ⟨rfl, ?_, rfl, rfl, rfl⟩
  simp [StdioListenerSt.Accept]

def c1ToolHandler : ServerHandlerFn CallToolRequestParams := fun _ _ _ => .ok (JSON.str "tool ran")

def c1Handler : Handler := { baseHandler with toolHandler := some c1ToolHandler }

def c1CallReq : Request :=
  ⟨.num 1, MethodToolsCall, some (JSON.obj [("name", JSON.str "t"), ("arguments", JSON.obj [])])⟩

/-- C1 counterexample: a handler whose Tools capability is nil.  A tools/call
request with well-formed params does not return method-not-found — the tool
handler is invoked and its reply returned. -/
theorem toolsCall_not_gated_counterexample :
    c1Handler.capabilities.tools = none ∧
    (c1Handler.Handle c1CallReq).1 = .ok (.handlerAny (JSON.str "tool ran")) ∧
    (c1Handler.Handle c1CallReq).1 ≠ .err .methodNotFound := by
  refine ⟨rfl, rfl, ?_⟩
  intro hcontra
  rw [show (c1Handler.Handle c1CallReq).1 = .ok (.handlerAny (JSON.str "tool ran")) from rfl]
    at hcontra
  exact HandleOut.noConfusion hcontra

/-- C1 (amended): with the Tools capability nil, tools/list returns
method-not-found; tools/call, however, is not capability-gated — whenever its
params decode, Handle delegates to the ToolHandler regardless of the
capability, panicking on a nil handler and otherwise returning the handler's
wrapped reply or error. -/
theorem toolsList_gated_toolsCall_ungated (h : Handler)
    (hTools : h.capabilities.tools = none) :
    (∀ req : Request, req.method = MethodToolsList →
      (h.Handle req).1 = .err .methodNotFound) ∧
    (∀ (req : Request) (p : CallToolRequestParams), req.method = MethodToolsCall →
      decodeCallToolRequestParams req.params = some p →
      (h.Handle req).1 =
        (match h.toolHandler with
         | none => .panicNilHandler
         | some th =>
           match th ⟨none⟩ MethodToolsCall p with
           | .error e => .err (.handlerFailed MethodToolsCall e)
           | .ok v => .ok (.handlerAny v))) := by
  constructor
  · intro req hm
    simp only [Handler.Handle, hm]
    simp only [MethodPing, MethodInitialize, MethodNotificationsInitialized, MethodPromptsList,
      MethodPromptsGet, MethodResourcesList, MethodResourcesRead, MethodResourceTemplatesList,
      MethodResourcesSubscribe, MethodResourcesUnsubscribe, MethodToolsList]
    simp [hTools]
  · intro req p hm hp
    simp only [Handler.Handle, hm]
    simp only [MethodPing, MethodInitialize, MethodNotificationsInitialized, MethodPromptsList,
      MethodPromptsGet, MethodResourcesList, MethodResourcesRead, MethodResourceTemplatesList,
      MethodResourcesSubscribe, MethodResourcesUnsubscribe, MethodToolsList, MethodToolsCall]
    simp only [hp]
    cases hth : h.toolHandler with
    | none => simp
    | some th => cases hres : th ⟨none⟩ "tools/call" p <;> simp [hres]

theorem toolsList_gated_toolsCall_ungated_witness :
    c1Handler.capabilities.tools = none ∧
    (c1Handler.Handle ⟨.num 3, MethodToolsList, none⟩).1 = .err .methodNotFound ∧
    (c1Handler.Handle c1CallReq).1 =
      (match c1Handler.toolHandler with
       | none => .panicNilHandler
       | some th =>
         match th ⟨none⟩ MethodToolsCall ⟨"t", some (JSON.obj [])⟩ with
         | .error e => .err (.handlerFailed MethodToolsCall e)
         | .ok v => .ok (.handlerAny v)) := by
  refine ⟨rfl, ?_, ?_⟩
  · exact (toolsList_gated_toolsCall_ungated c1Handler rfl).1
      ⟨.num 3, MethodToolsList, none⟩ rfl
  · exact (toolsList_gated_toolsCall_ungated c1Handler rfl).2
      c1CallReq ⟨"t", some (JSON.obj [])⟩ rfl rfl

def subscribeReq (u : String) : Request :=
  ⟨.num 0, MethodResourcesSubscribe, some (JSON.obj [("uri", JSON.str u)])⟩

def unsubscribeReq (u : String) : Request :=
  ⟨.num 0, MethodResourcesUnsubscribe, some (JSON.obj [("uri", JSON.str u)])⟩

theorem handle_subscribe (h : Handler) (u : String) :
    h.Handle (subscribeReq u) =
      (.ok .emptyObj, { h with subscribedResources := fun v =>
        if v = u then true else h.subscribedResources v }) := rfl

theorem handle_unsubscribe (h : Handler) (u : String) :
    h.Handle (unsubscribeReq u) =
      (.ok .emptyObj, { h with subscribedResources := fun v =>
        if v = u then false else h.subscribedResources v }) := rfl

/-- C8: the subscription registry is idempotent — subscribe twice leaves the
URI subscribed, subscribe/unsubscribe/unsubscribe leaves it unsubscribed, and
a duplicate subscribe or an unsubscribe of an absent entry leaves the
registry's membership function unchanged. -/
theorem subscription_registry_idempotent (h : Handler) (u : String) :
    ((h.Handle (subscribeReq u)).2.Handle (subscribeReq u)).2.IsSubscribed u = true ∧
    ((((h.Handle (subscribeReq u)).2.Handle (unsubscribeReq u)).2.Handle
        (unsubscribeReq u)).2.IsSubscribed u = false) ∧
    (h.IsSubscribed u = true →
      (h.Handle (subscribeReq u)).2.subscribedResources = h.subscribedResources) ∧
    (h.IsSubscribed u = false →
      (h.Handle (unsubscribeReq u)).2.subscribedResources = h.subscribedResources) := by
  refine ⟨?_, ?_, ?_, ?_⟩
  · simp [handle_subscribe, Handler.IsSubscribed]
  · simp [handle_subscribe, handle_unsubscribe, Handler.IsSubscribed]
  · intro hsub
    rw [handle_subscribe]
    funext v
    by_cases hv : v = u
    · subst hv
      simpa [Handler.IsSubscribed] using hsub.symm
    · simp [hv]
  · intro hsub
    rw [handle_unsubscribe]
    funext v
    by_cases hv : v = u
    · subst hv
      simpa [Handler.IsSubscribed] using hsub.symm
    · simp [hv]

theorem subscription_registry_idempotent_witness :
    ((baseHandler.Handle (subscribeReq "weather://x")).2.Handle
        (subscribeReq "weather://x")).2.IsSubscribed "weather://x" = true ∧
    baseHandler.IsSubscribed "weather://x" = false ∧
    (baseHandler.Handle (unsubscribeReq "weather://x")).2.subscribedResources
      = baseHandler.subscribedResources := by
  refine ⟨(subscription_registry_idempotent baseHandler "weather://x").1, rfl, ?_⟩
  exact (subscription_registry_idempotent baseHandler "weather://x").2.2.2 rfl

/-- C10: for a resources/list request whose params decode, Handle stores the
parsed cursor (the empty string when the params carry none) in the context
before invoking the resource handler, so NextCursor inside the handler is
always present; on a context without a stored cursor NextCursor is ("", false). -/
theorem resources_list_cursor (h : Handler) (rh : ServerResourceHandler) (req : Request)
    (c : String)
    (hrh : h.resourceHandler = some rh)
    (hm : req.method = MethodResourcesList)
    (hp : decodePaginationParams req.params = some ⟨c⟩) :
    ((h.Handle req).1 =
      match rh.HandleResourcesList ⟨some c⟩ with
      | .error e => .err (.handlerFailed MethodResourcesList e)
      | .ok v => .ok (.handlerAny v)) ∧
    NextCursor ⟨some c⟩ = (c, true) ∧
    (∀ fs, jlookup "cursor" fs = none →
      decodePaginationParams (some (JSON.obj fs)) = some ⟨""⟩) ∧
    NextCursor ⟨none⟩ = ("", false) := by
  refine ⟨?_, rfl, ?_, rfl⟩
  · simp only [Handler.Handle, hm]
    simp only [MethodPing, MethodInitialize, MethodNotificationsInitialized, MethodPromptsList,
      MethodPromptsGet, MethodResourcesList]
    simp only [hrh, nextCursorFromRequest, hp, Option.map_some]
    cases hres : rh.HandleResourcesList ⟨some c⟩ <;> simp [hres]
  · intro fs hfs
    simp [decodePaginationParams, decodeStruct, strField, hfs]

def w10Resource : ServerResourceHandler :=
  ⟨fun ctx => .ok (JSON.str (NextCursor ctx).1), fun _ _ => .ok JSON.null⟩

def w10Handler : Handler := { baseHandler with resourceHandler := some w10Resource }

theorem resources_list_cursor_witness :
    ((w10Handler.Handle ⟨.num 4, MethodResourcesList, some (JSON.obj [])⟩).1 =
      match w10Resource.HandleResourcesList ⟨some ""⟩ with
      | .error e => .err (.handlerFailed MethodResourcesList e)
      | .ok v => .ok (.handlerAny v)) ∧
    NextCursor ⟨some ""⟩ = ("", true) := by
  have := resources_list_cursor w10Handler w10Resource
    ⟨.num 4, MethodResourcesList, some (JSON.obj [])⟩ "" rfl rfl rfl
  exact ⟨this.1, this.2.1⟩

/-- C9: each content variant marshals to its section-4.3 wire shape — Text to
an object with type "text" and the text; Blob resource content to an object
with uri, optional mimeType and base64 bytes under "data"; EmbeddedResource
to an object with a "resource" field and no sibling "type" discriminant — and
each marshalled value parses back to an equal value (with the byte stream
materialized). -/
theorem content_wire_shapes_roundtrip :
    (∀ t : TextContent, ∃ fs, t.MarshalJSON = JSON.obj fs ∧
      jlookup "type" fs = some (JSON.str "text") ∧
      jlookup "text" fs = some (JSON.str t.text) ∧
      parseTextContent t.MarshalJSON = some t) ∧
    (∀ b : BlobResourceContent, ∃ fs, b.MarshalJSON = JSON.obj fs ∧
      jlookup "uri" fs = some (JSON.str b.uri) ∧
      jlookup "data" fs = some (JSON.str (base64Encode b.blob)) ∧
      (b.mimeType ≠ "" → jlookup "mimeType" fs = some (JSON.str b.mimeType)) ∧
      (b.mimeType = "" → jlookup "mimeType" fs = none) ∧
      parseBlobResourceContent b.MarshalJSON = some b) ∧
    (∀ e : EmbeddedResource, ∃ fs, e.MarshalJSON = JSON.obj fs ∧
      jlookup "resource" fs = some e.resource.MarshalJSON ∧
      jlookup "type" fs = none ∧
      parseEmbeddedResource e.MarshalJSON = some e) := by
  refine ⟨?_, ?_, ?_⟩
  · intro t
    refine ⟨_, rfl, ?_, ?_, parseTextContent_marshal t⟩ <;>
      cases t.annots <;> simp [jlookup, jlookup_append]
  · intro b
    refine ⟨_, rfl, ?_, ?_, ?_, ?_, parseBlobResourceContent_marshal b⟩ <;>
      by_cases hm : b.mimeType = "" <;> simp [jlookup, jlookup_append, hm]
  · intro e
    refine ⟨_, rfl, ?_, ?_, parseEmbeddedResource_marshal e⟩ <;>
      cases hann : e.annots <;>
        simp [jlookup, jlookup_append, AnnotationsM.marshalJSON]

theorem content_wire_shapes_roundtrip_witness :
    parseTextContent (TextContent.MarshalJSON ⟨"hello", none⟩) = some ⟨"hello", none⟩ ∧
    parseBlobResourceContent
        (BlobResourceContent.MarshalJSON ⟨"file://a", "image/png", [72, 105]⟩)
      = some ⟨"file://a", "image/png", [72, 105]⟩ ∧
    parseEmbeddedResource
        (EmbeddedResource.MarshalJSON ⟨.text ⟨"file://t", "", "body"⟩, none⟩)
      = some ⟨.text ⟨"file://t", "", "body"⟩, none⟩ := by
  obtain ⟨h1, h2, h3⟩ := content_wire_shapes_roundtrip
  refine ⟨?_, ?_, ?_⟩
  · obtain ⟨fs, _, _, _, hrt⟩ := h1 ⟨"hello", none⟩
    exact hrt
  · obtain ⟨fs, _, _, _, _, _, hrt⟩ := h2 ⟨"file://a", "image/png", [72, 105]⟩
    exact hrt
  · obtain ⟨fs, _, _, _, hrt⟩ := h3 ⟨.text ⟨"file://t", "", "body"⟩, none⟩
    exact hrt

/-! Auxiliary lemmas for the generated-shim analysis. -/

/-- Pointwise shape of a decoded field: the right tag, and a JSON value that
type-checks against the schema type of the field's decode type. -/
def decodedField (f : FieldSpec) (p : String × GoVal) : Prop :=
  p.1 = f.jsonTag ∧
  jsonTypeOk (schemaTypeOfGoType (fieldDecodeTyName f)) (goValToJSON p.2) = true

theorem zeroGoVal_typed (ty : String) :
    jsonTypeOk (schemaTypeOfGoType ty) (goValToJSON (zeroGoVal ty)) = true := by
  unfold zeroGoVal schemaTypeOfGoType
  split_ifs <;> simp_all [goValToJSON, jsonTypeOk]

theorem unmarshalGoVal_typed (ty : String) (j : JSON) (v : GoVal)
    (h : unmarshalGoVal ty j = some v) :
    jsonTypeOk (schemaTypeOfGoType ty) (goValToJSON v) = true := by
  cases j with
  | null =>
    simp only [unmarshalGoVal, Option.some.injEq] at h
    exact h ▸ zeroGoVal_typed ty
  | str s =>
    simp only [unmarshalGoVal] at h
    split_ifs at h with h1
    cases h
    subst h1
    simp [goValToJSON, jsonTypeOk, schemaTypeOfGoType]
  | bool b =>
    simp only [unmarshalGoVal] at h
    split_ifs at h with h1
    cases h
    subst h1
    simp [goValToJSON, jsonTypeOk, schemaTypeOfGoType]
  | num q =>
    simp only [unmarshalGoVal] at h
    split_ifs at h with h1 h2 h3
    · cases h
      have hs : ¬ty = "string" := by rcases h1 with h1 | h1 <;> subst h1 <;> decide
      have hb : ¬ty = "bool" := by rcases h1 with h1 | h1 <;> subst h1 <;> decide
      simp [schemaTypeOfGoType, hs, hb, h1, goValToJSON, jsonTypeOk]
    · cases h
      have hs : ¬ty = "string" := fun hc => h2 (Or.inl hc)
      have hb : ¬ty = "bool" := fun hc => h2 (Or.inr hc)
      simp [schemaTypeOfGoType, hs, hb, h1, goValToJSON, jsonTypeOk, Rat.den_intCast]
  | arr xs => simp [unmarshalGoVal] at h
  | obj fs => simp [unmarshalGoVal] at h

theorem zeroFields_decoded (fields : List FieldSpec) :
    List.Forall₂ decodedField fields
      (fields.map (fun f => (f.jsonTag, zeroGoVal (fieldDecodeTyName f)))) := by
  induction fields with
  | nil => exact .nil
  | cons f rest ih => exact .cons ⟨rfl, zeroGoVal_typed _⟩ ih

theorem unmarshalFields_decoded (fs : List (String × JSON)) (fields : List FieldSpec)
    (in_ : List (String × GoVal)) (h : unmarshalFields fs fields = some in_) :
    List.Forall₂ decodedField fields in_ := by
  induction fields generalizing in_ with
  | nil =>
    simp only [unmarshalFields, Option.some.injEq] at h
    exact h ▸ .nil
  | cons f rest ih =>
    cases hl : jlookup f.jsonTag fs with
    | none =>
      cases ht : unmarshalFields fs rest with
      | none => simp [unmarshalFields, hl, ht] at h
      | some tail =>
        simp [unmarshalFields, hl, ht] at h
        subst h
        exact .cons ⟨rfl, zeroGoVal_typed _⟩ (ih tail ht)
    | some j =>
      cases hv : unmarshalGoVal (fieldDecodeTyName f) j with
      | none => simp [unmarshalFields, hl, hv] at h
      | some v =>
        cases ht : unmarshalFields fs rest with
        | none => simp [unmarshalFields, hl, hv, ht] at h
        | some tail =>
          simp [unmarshalFields, hl, hv, ht] at h
          subst h
          exact .cons ⟨rfl, unmarshalGoVal_typed _ j v hv⟩ (ih tail ht)

theorem unmarshalGenerated_decoded (t : ToolDef) (args : Option JSON)
    (in_ : List (String × GoVal)) (h : unmarshalGenerated t args = some in_) :
    List.Forall₂ decodedField t.fields in_ := by
  cases args with
  | none => simp [unmarshalGenerated] at h
  | some j =>
    cases j with
    | null =>
      simp only [unmarshalGenerated, Option.some.injEq] at h
      exact h ▸ zeroFields_decoded t.fields
    | obj fs => exact unmarshalFields_decoded fs t.fields in_ h
    | bool b => simp [unmarshalGenerated] at h
    | num q => simp [unmarshalGenerated] at h
    | str s => simp [unmarshalGenerated] at h
    | arr xs => simp [unmarshalGenerated] at h

theorem forall₂_decoded_keys (fields : List FieldSpec) (in_ : List (String × GoVal))
    (h : List.Forall₂ decodedField fields in_) :
    in_.map Prod.fst = fields.map (·.jsonTag) := by
  induction h with
  | nil => rfl
  | cons hd _ ih => simp [ih, hd.1]

theorem jlookup_isSome_of_mem_keys (k : String) (l : List (String × JSON))
    (h : k ∈ l.map Prod.fst) : (jlookup k l).isSome := by
  induction l with
  | nil => simp at h
  | cons p rest ih =>
    simp only [List.map_cons, List.mem_cons] at h
    simp only [jlookup]
    cases hr : jlookup k rest with
    | some v => simp
    | none =>
      rcases h with h | h
      · simp [h]
      · have := ih h
        rw [hr] at this
        simp at this

theorem alookup_props (fields : List FieldSpec)
    (hnd : (fields.map (·.jsonTag)).Nodup) :
    ∀ f ∈ fields, alookup f.jsonTag
        (fields.map (fun g => (g.jsonTag, (⟨schemaTypeOfGoType g.goType, g.enumVals⟩ : SchemaProp))))
      = some ⟨schemaTypeOfGoType f.goType, f.enumVals⟩ := by
  induction fields with
  | nil => intro f hf; simp at hf
  | cons g rest ih =>
    intro f hf
    simp only [List.map_cons, List.nodup_cons] at hnd
    rcases List.mem_cons.mp hf with rfl | hf
    · simp [alookup]
    · have hne : g.jsonTag ≠ f.jsonTag := by
        intro hc
        exact hnd.1 (hc ▸ List.mem_map_of_mem (·.jsonTag) hf)
      simp only [List.map_cons, alookup, if_neg hne]
      exact ih hnd.2 f hf

/-- Enum admissibility of a typed request, field by field. -/
def enumsOkB (t : ToolDef) (in_ : List (String × GoVal)) : Bool :=
  (t.fields.zip in_).all (fun fp => enumValueOk fp.1.enumVals (goValToJSON fp.2.2))

theorem validation_all_aux (props : List (String × SchemaProp))
    (fields' : List FieldSpec) (in' : List (String × GoVal))
    (hf : List.Forall₂ decodedField fields' in')
    (hprops : ∀ f ∈ fields', alookup f.jsonTag props
      = some ⟨schemaTypeOfGoType f.goType, f.enumVals⟩)
    (hty : ∀ f ∈ fields',
      schemaTypeOfGoType (fieldDecodeTyName f) = schemaTypeOfGoType f.goType) :
    ((in'.map (fun p => (p.1, goValToJSON p.2))).all (fun p =>
      match alookup p.1 props with
      | none => false
      | some sp => jsonTypeOk sp.sty p.2 && enumValueOk sp.enumVals p.2)) =
    (fields'.zip in').all (fun fp => enumValueOk fp.1.enumVals (goValToJSON fp.2.2)) := by
  induction hf with
  | nil => rfl
  | @cons f p fields'' in'' hd tl ih =>
    obtain ⟨htag, htyok⟩ := hd
    simp only [List.map_cons, List.all_cons, List.zip_cons_cons, htag,
      hprops f (List.mem_cons_self f fields'')]
    have hrw : jsonTypeOk (schemaTypeOfGoType f.goType) (goValToJSON p.2) = true := by
      rw [← hty f (List.mem_cons_self f fields'')]
      exact htyok
    rw [hrw]
    simp only [Bool.true_and]
    rw [ih (fun g hg => hprops g (List.mem_cons_of_mem f hg))
        (fun g hg => hty g (List.mem_cons_of_mem f hg))]

/-- C2 counterexample: a tool with one required plain string field and a call
whose arguments omit it.  Routed through the generated shim and the
dispatcher, the call does not yield invalid params — the user handler runs. -/
def echoTool : ToolDef := ⟨"echo", "echoes a message", [⟨"Message", "message", "string", []⟩]⟩

def c2UserHandler : Ctx → String → List (String × GoVal) → Except String JSON :=
  fun _ _ _ => .ok (JSON.str "handler ran")

def c2Handler : Handler :=
  { baseHandler with
    capabilities := { baseHandler.capabilities with tools := some ⟨false⟩ },
    toolHandler := some (generatedToolHandler [echoTool] c2UserHandler) }

def c2Req : Request :=
  ⟨.num 2, MethodToolsCall,
    some (JSON.obj [("name", JSON.str "echo"), ("arguments", JSON.obj [])])⟩

theorem requiredField_not_enforced_counterexample :
    toolSchemaRequired echoTool = ["message"] ∧
    jlookup "message" ([] : List (String × JSON)) = none ∧
    (c2Handler.Handle c2Req).1 = .ok (.handlerAny (JSON.str "handler ran")) ∧
    (c2Handler.Handle c2Req).1 ≠ .err .invalidParams := by
  refine ⟨rfl, rfl, rfl, ?_⟩
  intro hcontra
  rw [show (c2Handler.Handle c2Req).1 = .ok (.handlerAny (JSON.str "handler ran")) from rfl]
    at hcontra
  exact HandleOut.noConfusion hcontra

/-- C2 (amended): the generated shim validates a re-marshal of the typed
request in which every property is present (zero-valued when omitted from the
arguments), so the schema's required and type checks always pass and the
validation reduces to the enum constraints; a call whose decoded request
violates an enum constraint is rejected without invoking the user handler,
but as a generic validation error that the dispatcher wraps into a
handler-failure — not the JSON-RPC invalid-params error — while a call whose
decoded request satisfies every enum constraint (in particular, one omitting
a required non-enum field) reaches the user handler. -/
theorem requiredField_validation_amended (t : ToolDef) (args : Option JSON)
    (in_ : List (String × GoVal))
    (hnd : (t.fields.map (·.jsonTag)).Nodup)
    (hty : ∀ f ∈ t.fields,
      schemaTypeOfGoType (fieldDecodeTyName f) = schemaTypeOfGoType f.goType)
    (hun : unmarshalGenerated t args = some in_) :
    ((toolSchemaRequired t).all
      (fun r => (jlookup r (in_.map (fun p => (p.1, goValToJSON p.2)))).isSome) = true) ∧
    (ValidateByJSONSchema (toolSchemaProps t) (toolSchemaRequired t)
      (remarshalGenerated in_) = enumsOkB t in_) ∧
    (∀ uh, generatedShim t uh args =
      if enumsOkB t in_ then uh in_ else .error "invalid tool arguments") ∧
    (∀ (h : Handler) (th : ServerHandlerFn CallToolRequestParams) (req : Request)
        (p : CallToolRequestParams) (e : String),
      h.toolHandler = some th → req.method = MethodToolsCall →
      decodeCallToolRequestParams req.params = some p →
      th ⟨none⟩ MethodToolsCall p = .error e →
      (h.Handle req).1 = .err (.handlerFailed MethodToolsCall e) ∧
      (h.Handle req).1 ≠ .err .invalidParams) := by
  have hdec := unmarshalGenerated_decoded t args in_ hun
  have hkeys : in_.map Prod.fst = t.fields.map (·.jsonTag) := forall₂_decoded_keys _ _ hdec
  have hreq : (toolSchemaRequired t).all
      (fun r => (jlookup r (in_.map (fun p => (p.1, goValToJSON p.2)))).isSome) = true := by
    rw [List.all_eq_true]
    intro r hr
    apply jlookup_isSome_of_mem_keys
    have : (in_.map (fun p => (p.1, goValToJSON p.2))).map Prod.fst = in_.map Prod.fst := by
      simp
    rw [this, hkeys]
    simpa [toolSchemaRequired] using hr
  have hval : ValidateByJSONSchema (toolSchemaProps t) (toolSchemaRequired t)
      (remarshalGenerated in_) = enumsOkB t in_ := by
    simp only [ValidateByJSONSchema, remarshalGenerated]
    rw [hreq]
    simp only [Bool.true_and]
    exact validation_all_aux (toolSchemaProps t) t.fields in_ hdec
      (alookup_props t.fields hnd) hty
  refine ⟨hreq, hval, ?_, ?_⟩
  · intro uh
    simp only [generatedShim, hun, hval]
  · intro h th req p e hth hm hp herr
    have hout : (h.Handle req).1 = .err (.handlerFailed MethodToolsCall e) := by
      simp only [Handler.Handle, hm]
      simp only [MethodPing, MethodInitialize, MethodNotificationsInitialized, MethodPromptsList,
        MethodPromptsGet, MethodResourcesList, MethodResourcesRead, MethodResourceTemplatesList,
        MethodResourcesSubscribe, MethodResourcesUnsubscribe, MethodToolsList, MethodToolsCall]
      simp only [hp, hth]
      simp only [MethodToolsCall] at herr
      simp [herr]
    refine ⟨hout, ?_⟩
    rw [hout]
    intro hcontra
    simp at hcontra

def convertTool : ToolDef :=
  ⟨"convert_temperature", "Convert temperature between Celsius and Fahrenheit",
   [⟨"Temperature", "temperature", "float64", []⟩,
    ⟨"FromUnit", "from_unit", "string", [.str "celsius", .str "fahrenheit"]⟩,
    ⟨"ToUnit", "to_unit", "string", [.str "celsius", .str "fahrenheit"]⟩]⟩

def c2wArgs : Option JSON :=
  some (JSON.obj [("temperature", JSON.num 0), ("to_unit", JSON.str "celsius")])

def c2wIn : List (String × GoVal) :=
  [("temperature", .num 0), ("from_unit", .str ""), ("to_unit", .str "celsius")]

theorem requiredField_validation_amended_witness :
    (convertTool.fields.map (·.jsonTag)).Nodup ∧
    unmarshalGenerated convertTool c2wArgs = some c2wIn ∧
    enumsOkB convertTool c2wIn = false ∧
    (∀ uh, generatedShim convertTool uh c2wArgs =
      if enumsOkB convertTool c2wIn then uh c2wIn else .error "invalid tool arguments") := by
  refine ⟨by decide, rfl, rfl, ?_⟩
  exact (requiredField_validation_amended convertTool c2wArgs c2wIn (by decide)
    (by decide) rfl).2.2.1

/-! Permutation invariance of the enum-sensitive emission (for C6). -/

theorem alookup_congr_perm {α : Type} {l₁ l₂ : List (String × α)}
    (hp : l₁.Perm l₂) (hnd : (l₁.map Prod.fst).Nodup) (k : String) :
    alookup k l₁ = alookup k l₂ := by
  revert hnd
  induction hp with
  | nil => intro _; rfl
  | cons x h ih =>
    intro hnd
    simp only [alookup]
    by_cases hk : x.1 = k
    · simp [hk]
    · simp only [if_neg hk]
      exact ih (by simpa using (List.nodup_cons.mp (by simpa using hnd)).2)
  | swap x y tail =>
    intro hnd
    have hxy : y.1 ≠ x.1 := by
      have h' := hnd
      simp only [List.map_cons, List.nodup_cons] at h'
      intro hc
      exact h'.1 (by simp [hc])
    simp only [alookup]
    by_cases hk1 : y.1 = k <;> by_cases hk2 : x.1 = k
    · exact absurd (hk1.trans hk2.symm) hxy
    · simp [hk1, hk2]
    · simp [hk1, hk2]
    · simp [hk1, hk2]
  | trans h1 h2 ih1 ih2 =>
    intro hnd
    have hnd2 := ((h1.map Prod.fst).nodup_iff).mp hnd
    rw [ih1 hnd, ih2 hnd2]

theorem insertionSort_eq_of_perm {l₁ l₂ : List String} (hp : l₁.Perm l₂) :
    List.insertionSort (fun a b => strLe a b = true) l₁
      = List.insertionSort (fun a b => strLe a b = true) l₂ :=
  List.eq_of_perm_of_sorted
    ((List.perm_insertionSort _ l₁).trans (hp.trans (List.perm_insertionSort _ l₂).symm))
    (List.sorted_insertionSort _ l₁) (List.sorted_insertionSort _ l₂)

theorem toolSections_congr (t : ToolDef) (ef₁ ef₂ : List (String × List EnumVal))
    (h₁ : ef₁.Perm (getEnumFieldsCanonical t)) (h₂ : ef₂.Perm (getEnumFieldsCanonical t))
    (hnd : ((getEnumFieldsCanonical t).map Prod.fst).Nodup) :
    toolEnumSectionLines t ef₁ = toolEnumSectionLines t ef₂ ∧
    toolRequestStructLines t ef₁ = toolRequestStructLines t ef₂ := by
  have hp : ef₁.Perm ef₂ := h₁.trans h₂.symm
  have hnd₁ : (ef₁.map Prod.fst).Nodup := ((h₁.map Prod.fst).nodup_iff).mpr hnd
  have hlk : ∀ k, alookup k ef₁ = alookup k ef₂ := fun k => alookup_congr_perm hp hnd₁ k
  have hkeys : List.insertionSort (fun a b : String => strLe a b = true) (ef₁.map Prod.fst)
      = List.insertionSort (fun a b : String => strLe a b = true) (ef₂.map Prod.fst) :=
    insertionSort_eq_of_perm (hp.map Prod.fst)
  constructor
  · simp only [toolEnumSectionLines, hkeys]
    congr 1
    apply List.map_congr_left
    intro a _
    rw [hlk a]
  · simp only [toolRequestStructLines]
    congr 1
    congr 1
    apply List.map_congr_left
    intro f _
    rw [hlk f.jsonTag]

/-- C6: the generator is deterministic — for a fixed definition and package
name, the emitted bytes do not depend on the iteration order of the
map-derived enum-field set, because field names are sorted before any
emission; hence two independent invocations (any two admissible iteration
orders, any fixed post-processing) write byte-identical output. -/
theorem Generate_deterministic (d : GenServerDefinition) (pkgName : String)
    (process : String → String)
    (o₁ o₂ : ToolDef → List (String × List EnumVal))
    (h₁ : ∀ t ∈ d.tools, (o₁ t).Perm (getEnumFieldsCanonical t))
    (h₂ : ∀ t ∈ d.tools, (o₂ t).Perm (getEnumFieldsCanonical t))
    (hnd : ∀ t ∈ d.tools, ((getEnumFieldsCanonical t).map Prod.fst).Nodup) :
    Generate d pkgName o₁ process = Generate d pkgName o₂ process := by
  have hsec : d.tools.map (fun t => toolEnumSectionLines t (o₁ t) ++ toolRequestStructLines t (o₁ t))
      = d.tools.map (fun t => toolEnumSectionLines t (o₂ t) ++ toolRequestStructLines t (o₂ t)) := by
    apply List.map_congr_left
    intro t ht
    obtain ⟨ha, hb⟩ := toolSections_congr t (o₁ t) (o₂ t) (h₁ t ht) (h₂ t ht) (hnd t ht)
    rw [ha, hb]
  have hth : generateToolHandlersLines d.tools o₁ = generateToolHandlersLines d.tools o₂ := by
    simp only [generateToolHandlersLines, hsec]
  simp only [Generate, generateLines, hth]

def w6Tool : ToolDef :=
  ⟨"set_mode", "sets the mode",
   [⟨"Mode", "mode", "string", [.str "fast", .str "slow"]⟩,
    ⟨"Level", "level", "int", [.num 2, .num 1]⟩]⟩

def w6Def : GenServerDefinition :=
  ⟨⟨false, none, true, false, false⟩, ⟨"S", "1"⟩, [], [], [w6Tool]⟩

def w6o1 : ToolDef → List (String × List EnumVal) := fun t => getEnumFieldsCanonical t

def w6o2 : ToolDef → List (String × List EnumVal) := fun t => (getEnumFieldsCanonical t).reverse

theorem Generate_deterministic_witness :
    (∀ t ∈ w6Def.tools, (w6o1 t).Perm (getEnumFieldsCanonical t)) ∧
    (∀ t ∈ w6Def.tools, (w6o2 t).Perm (getEnumFieldsCanonical t)) ∧
    Generate w6Def "weather" w6o1 id = Generate w6Def "weather" w6o2 id := by
  refine ⟨fun t _ => List.Perm.refl _, fun t _ => List.reverse_perm _, ?_⟩
  exact Generate_deterministic w6Def "weather" id w6o1 w6o2
    (fun t _ => List.Perm.refl _) (fun t _ => List.reverse_perm _) (by decide)

/-! Order instances for the enum sorting relations (for C7). -/

instance : IsTotal EnumVal (fun a b => a.intVal ≤ b.intVal) :=
  ⟨fun a b => Int.le_total a.intVal b.intVal⟩

instance : IsTrans EnumVal (fun a b => a.intVal ≤ b.intVal) :=
  ⟨fun _ _ _ hab hbc => le_trans hab hbc⟩

instance : IsTotal EnumVal (fun a b => strLe a.render b.render = true) :=
  ⟨fun a b => charListLe_total a.render.toList b.render.toList⟩

instance : IsTrans EnumVal (fun a b => strLe a.render b.render = true) :=
  ⟨fun a b c => charListLe_trans a.render.toList b.render.toList c.render.toList⟩

/-- C7: for a field with a nonempty enum, all integer-valued numbers give a
nominal type with underlying `int` whose constants carry exactly those
integers, emitted ascending; any non-integer value gives underlying `string`;
an all-string enum is emitted with the quoted strings in lexicographic order. -/
theorem enum_generation (toolName fieldName : String) (vals : List EnumVal)
    (hne : vals ≠ []) :
    ((∀ v ∈ vals, v.isIntegerNum = true) →
      getEnumType vals = "int" ∧
      ∃ sorted : List EnumVal, sorted.Perm vals ∧
        List.Sorted (· ≤ ·) (sorted.map EnumVal.intVal) ∧
        enumConstLines toolName fieldName vals =
          ["// " ++ (toolName ++ pascalCase fieldName ++ "Type") ++
             " represents possible values for " ++ fieldName,
           "type " ++ (toolName ++ pascalCase fieldName ++ "Type") ++ " int",
           "",
           "const ("] ++
          sorted.map (fun v =>
            "\t" ++ (toolName ++ pascalCase fieldName ++ "Type") ++ pascalCase v.render ++
              " " ++ (toolName ++ pascalCase fieldName ++ "Type") ++ " = " ++
              toString v.intVal) ++
          [")", ""]) ∧
    ((∃ v ∈ vals, v.isIntegerNum = false) → getEnumType vals = "string") ∧
    ((∀ v ∈ vals, ∃ s, v = EnumVal.str s) →
      getEnumType vals = "string" ∧
      ∃ sorted : List EnumVal, sorted.Perm vals ∧
        List.Sorted (fun a b => strLe a b = true) (sorted.map EnumVal.render) ∧
        enumConstLines toolName fieldName vals =
          ["// " ++ (toolName ++ pascalCase fieldName ++ "Type") ++
             " represents possible values for " ++ fieldName,
           "type " ++ (toolName ++ pascalCase fieldName ++ "Type") ++ " string",
           "",
           "const ("] ++
          sorted.map (fun v =>
            "\t" ++ (toolName ++ pascalCase fieldName ++ "Type") ++ pascalCase v.render ++
              " " ++ (toolName ++ pascalCase fieldName ++ "Type") ++ " = \"" ++
              v.render ++ "\"") ++
          [")", ""]) := by
  refine ⟨?_, ?_, ?_⟩
  · intro hall
    have hint : getEnumType vals = "int" := by
      simp only [getEnumType, if_pos (List.all_eq_true.mpr hall)]
    refine ⟨hint, List.insertionSort (fun a b => a.intVal ≤ b.intVal) vals,
      List.perm_insertionSort _ vals, ?_, ?_⟩
    · rw [List.Sorted, List.pairwise_map]
      exact List.sorted_insertionSort _ vals
    · simp only [enumConstLines, hint, sortEnumValues, if_pos rfl, reduceIte]
      simp [String.append_assoc]
  · intro ⟨v, hv, hfalse⟩
    have : vals.all EnumVal.isIntegerNum = false := by
      rw [List.all_eq_false]
      exact ⟨v, hv, by simp [hfalse]⟩
    simp only [getEnumType, this, Bool.false_eq_true, if_false]
  · intro hall
    have hex : ∃ v ∈ vals, v.isIntegerNum = false := by
      cases vals with
      | nil => exact absurd rfl hne
      | cons v rest =>
        obtain ⟨s, hs⟩ := hall v (List.mem_cons_self v rest)
        exact ⟨v, List.mem_cons_self v rest, by simp [hs, EnumVal.isIntegerNum]⟩
    have hstr : getEnumType vals = "string" := by
      have : vals.all EnumVal.isIntegerNum = false := by
        rw [List.all_eq_false]
        obtain ⟨v, hv, hfalse⟩ := hex
        exact ⟨v, hv, by simp [hfalse]⟩
      simp only [getEnumType, this, Bool.false_eq_true, if_false]
    refine ⟨hstr, List.insertionSort (fun a b => strLe a.render b.render = true) vals,
      List.perm_insertionSort _ vals, ?_, ?_⟩
    · rw [List.Sorted, List.pairwise_map]
      exact List.sorted_insertionSort _ vals
    · simp only [enumConstLines, hstr, sortEnumValues, reduceIte]
      simp [String.append_assoc]

theorem enum_generation_witness :
    getEnumType [.num 3, .num 1] = "int" ∧
    getEnumType [.str "fahrenheit", .str "celsius"] = "string" ∧
    getEnumType [.num 3, .str "a"] = "string" ∧
    enumConstLines "ConvertTemperature" "from_unit" [.str "fahrenheit", .str "celsius"] =
      ["// ConvertTemperatureFromUnitType represents possible values for from_unit",
       "type ConvertTemperatureFromUnitType string",
       "",
       "const (",
       "\tConvertTemperatureFromUnitTypeCelsius ConvertTemperatureFromUnitType = \"celsius\"",
       "\tConvertTemperatureFromUnitTypeFahrenheit ConvertTemperatureFromUnitType = \"fahrenheit\"",
       ")", ""] := by
  refine ⟨?_, ?_, ?_, by rfl⟩
  · exact ((enum_generation "T" "f" [.num 3, .num 1] (by simp)).1 (by decide)).1
  · refine ((enum_generation "T" "f" [.str "fahrenheit", .str "celsius"] (by simp)).2.2 ?_).1
    intro v hv
    rcases List.mem_cons.mp hv with rfl | hv
    · exact ⟨"fahrenheit", rfl⟩
    rcases List.mem_cons.mp hv with rfl | hv
    · exact ⟨"celsius", rfl⟩
    · simp at hv
  · exact (enum_generation "T" "f" [.num 3, .str "a"] (by simp)).2.1
      ⟨.str "a", by decide, by decide⟩
